import Mathlib

/-!
# eventually: Futures and Executors

A shallow embedding of `future.go` and `executor.go`.

A Future is run by several goroutines that share its fields without any lock:
the goroutine that calls `Run`/`Get`/`Await`, a goroutine that calls `Kill`,
and the two goroutines `tick` and `run` spawned by `Run`.  The embedding is a
small-step semantics: every goroutine has a program counter named after the
source line it is about to execute, one step executes one source statement,
and the goroutines interleave in any order.  A schedule is the list of the
steps taken.  Unbuffered channels are a status (open or closed) together with
hand-off steps that move a blocked sender and a blocked receiver at once.
An unrecovered panic stops the whole process: no step is possible afterwards.

The ticker of `tick` is abstract: while `tick` waits in its `select`, the step
`timer` may take the `tick.C` case at any moment, whatever the timeout is.  The
timeout is taken positive, as `time.NewTicker` requires.  An Operation is
modelled by the pair it returns; the moment at which it returns is the step
`opReturn`, and an Operation that never returns is a schedule without that step.

One goroutine calls `Run` (once) and `Get` (any number of times, one call after
the other); one goroutine calls `Kill` (any number of times, one call after the
other).  The values these calls return are recorded in the state, so that the
theorems can speak of what `Get`, `Await` and `Kill` return.

The methods of an Executor are called by its clients one after the other: a call
of `Start`, `Stop` or `Execute` is one step, which includes the hand-off with the
dispatch loop `execute` when there is one.  The workers spawned by the dispatch
loop and the goroutines of their Futures interleave freely with these calls.
The largest capacity at which the runtime makes the semaphore of `Start` depends
on the platform; it is the parameter `limit` of `Start` and of everything that
calls it.
-/

namespace Eventually

/-- Error values: the three sentinels of the package and any other error an Operation returns. -/
inductive Error where
  | ErrFutureTimedOut
  | ErrGetTimedOut
  | ErrExecutorAlreadyStopped
  | other (code : Nat)
  deriving DecidableEq, Repr

/-- Payload of an `interface{}` result; `none` stands for `nil`. -/
abbrev Value := Nat

/-- An Operation, `func() (interface{}, error)`, given by the pair it returns. -/
structure Operation where
  result : Option Value
  err : Option Error
  deriving DecidableEq, Repr

/-- Status of a channel made by `make(chan bool)`. -/
inductive Chan where
  | opened
  | closed
  deriving DecidableEq, Repr

/-- Program counter of the goroutine `f.tick()`; `l79` is the `select`. -/
inductive TickPc where
  | idle | l77 | l79 | l81 | l84 | l85 | l88 | l91 | l109 | l110 | returned
  deriving DecidableEq, Repr

/-- Program counter of the goroutine `f.run()`; at `l98` the Operation is executing,
at `l105` the goroutine is blocked sending on `f.done`, `l109` and `l110` are the
deferred `f.close()`. -/
inductive RunPc where
  | idle | l98 | l99 | l102 | l103 | l104 | l105 | l109 | l110 | returned
  deriving DecidableEq, Repr

/-- Program counter of the goroutine that calls `Run` and then `Get`
(`Await` is exactly that sequence): `l72`, `l73` are inside `Run`,
`l65`, `l66`, `l68` inside `Get`; at `ready` it is between two calls. -/
inductive CallerPc where
  | fresh | l72 | l73 | ready | l65 | l66 | l68
  deriving DecidableEq, Repr

/-- Program counter of the goroutine that calls `Kill`. -/
inductive KillerPc where
  | ready | l52 | l53 | l55 | l56
  deriving DecidableEq, Repr

/-- The struct `future` together with the goroutines working on it.
`gets` and `kills` record, in order, the values returned by the calls of
`Get` and `Kill`; `panicked` is set by an unrecovered panic. -/
structure Future where
  op : Operation
  completed : Bool
  killed : Bool
  timedout : Bool
  done : Chan
  kill : Chan
  result : Option Value
  err : Option Error
  tickPc : TickPc
  runPc : RunPc
  callerPc : CallerPc
  killerPc : KillerPc
  gets : List (Option Value × Option Error)
  kills : List Bool
  panicked : Bool
  deriving DecidableEq, Repr

/-- Constructor `NewFuture(op, timeout)`: fresh channels, zero-valued fields, no goroutine yet. -/
def NewFuture (op : Operation) : Future :=
  { op := op, completed := false, killed := false, timedout := false,
    done := .opened, kill := .opened, result := none, err := none,
    tickPc := .idle, runPc := .idle, callerPc := .fresh, killerPc := .ready,
    gets := [], kills := [], panicked := false }

/-- Method `isDone`: `f.completed || f.timedout || f.killed`. -/
def Future.isDone (f : Future) : Bool :=
  f.completed || f.timedout || f.killed

/-- The steps of a schedule. -/
inductive Label where
  /-- the caller invokes `Run` (first statement of `Await`) -/
  | callRun
  /-- the caller invokes `Get` -/
  | callGet
  /-- the caller executes its next statement -/
  | caller
  /-- the killer invokes `Kill` -/
  | callKill
  /-- the killer executes its next statement -/
  | killer
  /-- the goroutine `tick` executes its next statement -/
  | tick
  /-- the ticker fires and the `select` of `tick` takes the case `<-tick.C` -/
  | timer
  /-- the Operation returns inside `run` -/
  | opReturn
  /-- the goroutine `run` executes its next statement -/
  | run
  /-- hand-off on `f.kill`: the send of `Kill` meets the `select` of `tick` -/
  | killHandoff
  /-- hand-off on `f.done`: the send of `run` meets the receive of `Get` -/
  | doneHandoff
  deriving DecidableEq, Repr

/-- Method `Run`, one statement: `go f.tick()` (line 72), then `go f.run()` (line 73),
which starts the Operation. -/
def Future.Run (f : Future) : Option Future :=
  match f.callerPc with
  | .l72 => some { f with callerPc := .l73, tickPc := .l77 }
  | .l73 => some { f with callerPc := .ready, runPc := .l98 }
  | _ => none

/-- Method `Get`, one statement: the test `!f.completed` (line 65), the receive
`<-f.done` when the channel is closed (line 66), `return f.result, f.err` (line 68). -/
def Future.Get (f : Future) : Option Future :=
  match f.callerPc with
  | .l65 => if f.completed then some { f with callerPc := .l68 }
            else some { f with callerPc := .l66 }
  | .l66 => if f.done = .closed then some { f with callerPc := .l68 } else none
  | .l68 => some { f with callerPc := .ready, gets := f.gets ++ [(f.result, f.err)] }
  | _ => none

/-- Method `Await`, `f.Run()` then `return f.Get()`: the next statement of the caller. -/
def Future.Await (f : Future) : Option Future :=
  match f.callerPc with
  | .l72 => f.Run
  | .l73 => f.Run
  | _ => f.Get

/-- Method `Kill`, one statement: the test `f.completed` (line 52), `return f.killed`
(line 53), the send `f.kill <- true` when the channel is closed, a panic (line 55),
`return true` (line 56). -/
def Future.Kill (f : Future) : Option Future :=
  match f.killerPc with
  | .l52 => if f.completed then some { f with killerPc := .l53 }
            else some { f with killerPc := .l55 }
  | .l53 => some { f with killerPc := .ready, kills := f.kills ++ [f.killed] }
  | .l55 => if f.kill = .closed then some { f with panicked := true } else none
  | .l56 => some { f with killerPc := .ready, kills := f.kills ++ [true] }
  | _ => none

/-- Method `tick`, one statement; at the `select` (`l79`) only the receive from a
closed `f.kill` is a step of `tick` alone; `l109` and `l110` are the two closes of
`f.close()`, and closing a closed channel panics. -/
def Future.tick (f : Future) : Option Future :=
  match f.tickPc with
  | .l77 => some { f with tickPc := .l79 }
  | .l79 => if f.kill = .closed then some { f with tickPc := .l88 } else none
  | .l81 => if f.completed || f.killed then some { f with tickPc := .returned }
            else some { f with tickPc := .l84 }
  | .l84 => some { f with timedout := true, tickPc := .l85 }
  | .l85 => some { f with err := some .ErrFutureTimedOut, tickPc := .l109 }
  | .l88 => if f.isDone then some { f with tickPc := .returned }
            else some { f with tickPc := .l91 }
  | .l91 => some { f with killed := true, tickPc := .l109 }
  | .l109 => if f.kill = .closed then some { f with panicked := true }
             else some { f with kill := .closed, tickPc := .l110 }
  | .l110 => if f.done = .closed then some { f with panicked := true }
             else some { f with done := .closed, tickPc := .returned }
  | _ => none

/-- Method `run`, one statement after the Operation returned; `return` at line 100
and the end of the function both continue with the deferred `f.close()`; the send
on `f.done` at line 105 panics when the channel is closed. -/
def Future.run (f : Future) : Option Future :=
  match f.runPc with
  | .l99 => if f.isDone then some { f with runPc := .l109 }
            else some { f with runPc := .l102 }
  | .l102 => some { f with result := f.op.result, runPc := .l103 }
  | .l103 => some { f with err := f.op.err, runPc := .l104 }
  | .l104 => some { f with completed := true, runPc := .l105 }
  | .l105 => if f.done = .closed then some { f with panicked := true } else none
  | .l109 => if f.kill = .closed then some { f with panicked := true }
             else some { f with kill := .closed, runPc := .l110 }
  | .l110 => if f.done = .closed then some { f with panicked := true }
             else some { f with done := .closed, runPc := .returned }
  | _ => none

/-- One step of the system; `none` when the step is not enabled. -/
def step (l : Label) (f : Future) : Option Future :=
  if f.panicked then none else
  match l with
  | .callRun => if f.callerPc = .fresh then some { f with callerPc := .l72 } else none
  | .callGet => if f.callerPc = .ready then some { f with callerPc := .l65 } else none
  | .caller => f.Await
  | .callKill => if f.killerPc = .ready then some { f with killerPc := .l52 } else none
  | .killer => f.Kill
  | .tick => f.tick
  | .timer => if f.tickPc = .l79 then some { f with tickPc := .l81 } else none
  | .opReturn => if f.runPc = .l98 then some { f with runPc := .l99 } else none
  | .run => f.run
  | .killHandoff =>
      if f.killerPc = .l55 ∧ f.tickPc = .l79 ∧ f.kill = .opened then
        some { f with killerPc := .l56, tickPc := .l88 }
      else none
  | .doneHandoff =>
      if f.runPc = .l105 ∧ f.callerPc = .l66 ∧ f.done = .opened then
        some { f with runPc := .l109, callerPc := .l68 }
      else none

/-- Run a schedule; `none` when one of its steps is not enabled. -/
def exec : List Label → Future → Option Future
  | [], f => some f
  | l :: ls, f => (step l f).bind (exec ls)

/-! ## Executor -/

/-- The buffered channel `make(chan bool, e.max)`: capacity, number of buffered
values, and whether it was closed. -/
structure Semaphore where
  cap : Nat
  count : Nat
  closed : Bool
  deriving DecidableEq, Repr

/-- Program counter of the dispatch goroutine `e.execute()`; `l58` is its `select`. -/
inductive LoopPc where
  | idle | l58 | returned
  deriving DecidableEq, Repr

/-- Program counter of the goroutine spawned at line 63 for one submitted Future:
`l64` sends on the semaphore, `l65` is inside `f.Await()`, `l66` receives from the
semaphore, `l67` sends the Future on `e.out`. -/
inductive WorkerPc where
  | l64 | l65 | l66 | l67 | returned
  deriving DecidableEq, Repr

/-- A worker goroutine and the Future it was given. -/
structure Worker where
  pc : WorkerPc
  fut : Future
  deriving DecidableEq, Repr

/-- The struct `executor` (a `nil` channel is `none`) together with its goroutines;
`sent` lists the Futures handed over on `e.out`. -/
structure Executor where
  max : Nat
  semaphore : Option Semaphore
  kill : Option Chan
  buffer : Option Chan
  out : Option Chan
  started : Bool
  stopped : Bool
  loopPc : LoopPc
  workers : List Worker
  sent : List Future
  panicked : Bool
  deriving DecidableEq, Repr

/-- How a call of a method of the Executor ends: it returns a value, it blocks
forever, or it panics; each with the state it leaves. -/
inductive Outcome (α : Type) where
  | returns (v : α) (e : Executor)
  | blocks (e : Executor)
  | panics (e : Executor)
  deriving Repr

/-- State left by a call. -/
def Outcome.state {α : Type} : Outcome α → Executor
  | .returns _ e => e
  | .blocks e => e
  | .panics e => e

/-- Value returned by a call, when it returns. -/
def Outcome.returned {α : Type} : Outcome α → Option α
  | .returns v _ => some v
  | .blocks _ => none
  | .panics _ => none

/-- Method `Start`.  The field `max` is a `uint`, here a natural number.  `limit` is
the largest capacity at which the runtime makes a `chan bool` (it depends on the
platform): above it `make(chan bool, e.max)` at line 77 panics, before any field of
the Executor is written.  The dispatch loop launched at line 83 waits in its
`select`. -/
def Start (limit : Nat) (e : Executor) : Outcome Bool :=
  if e.started then .returns false e
  else if limit < e.max then .panics { e with panicked := true }
  else .returns true { e with
    semaphore := some { cap := e.max, count := 0, closed := false },
    kill := some .opened, buffer := some .opened, out := some .opened,
    started := true, loopPc := .l58 }

/-- Constructor `NewExecutor(size, start)`: the state of the process when the call is
over.  When the `Start` it makes panics, the constructor returns nothing and the
process has panicked. -/
def NewExecutor (limit size : Nat) (start : Bool) : Executor :=
  let e : Executor :=
    { max := size, semaphore := none, kill := none, buffer := none, out := none,
      started := false, stopped := false, loopPc := .idle, workers := [], sent := [],
      panicked := false }
  if start then (Start limit e).state else e

/-- Method `Execute`: the send on `e.buffer` is received by the `select` of the
dispatch loop, which spawns the worker of the Future (lines 62 to 68). -/
def Execute (e : Executor) (f : Future) : Outcome Bool :=
  if e.stopped then .returns false e
  else
    match e.buffer with
    | none => .blocks e
    | some .closed => .panics { e with panicked := true }
    | some .opened =>
        if e.loopPc = .l58 then
          .returns true { e with workers := e.workers ++ [{ pc := .l64, fut := f }] }
        else .blocks e

/-- Method `Stop`: the send on `e.kill` is received by the `select` of the
dispatch loop, which closes `e.kill` and returns (lines 59 to 61); then
`Stop` closes `e.out`, `e.semaphore` and `e.buffer`. -/
def Stop (e : Executor) : Outcome (Option Error) :=
  if e.stopped then .returns (some .ErrExecutorAlreadyStopped) e
  else
    let e1 := { e with stopped := true }
    match e1.kill with
    | none => .blocks e1
    | some .closed => .panics { e1 with panicked := true }
    | some .opened =>
        if e1.loopPc = .l58 then
          let e2 := { e1 with kill := some .closed, loopPc := .returned }
          match e2.out, e2.semaphore, e2.buffer with
          | some .opened, some s, some .opened =>
              if s.closed then .panics { e2 with out := some .closed, panicked := true }
              else .returns none { e2 with out := some .closed,
                                           semaphore := some { s with closed := true },
                                           buffer := some .closed }
          | some .opened, some s, _ =>
              if s.closed then .panics { e2 with out := some .closed, panicked := true }
              else .panics { e2 with out := some .closed,
                                     semaphore := some { s with closed := true },
                                     panicked := true }
          | some .opened, none, _ => .panics { e2 with out := some .closed, panicked := true }
          | _, _, _ => .panics { e2 with panicked := true }
        else .blocks e1

/-- Method `Listen`. -/
def Listen (e : Executor) : Option Chan := e.out

/-- One statement of the worker `i` (lines 64 to 67); the call `f.Await()` at
line 65 is over when the `Get` of its Future has returned. -/
def Executor.worker (i : Nat) (e : Executor) : Option Executor :=
  match e.workers[i]? with
  | none => none
  | some w =>
    match w.pc with
    | .l64 =>
        match e.semaphore with
        | none => none
        | some s =>
            if s.closed then some { e with panicked := true }
            else if s.count < s.cap then
              some { e with semaphore := some { s with count := s.count + 1 },
                            workers := e.workers.set i { w with pc := .l65 } }
            else none
    | .l65 =>
        if w.fut.callerPc = .ready ∧ w.fut.gets ≠ [] then
          some { e with workers := e.workers.set i { w with pc := .l66 } }
        else none
    | .l66 =>
        match e.semaphore with
        | none => none
        | some s =>
            if 0 < s.count then
              some { e with semaphore := some { s with count := s.count - 1 },
                            workers := e.workers.set i { w with pc := .l67 } }
            else if s.closed then
              some { e with workers := e.workers.set i { w with pc := .l67 } }
            else none
    | .l67 =>
        match e.out with
        | none => none
        | some .closed => some { e with panicked := true }
        | some .opened =>
            some { e with sent := e.sent ++ [w.fut],
                          workers := e.workers.set i { w with pc := .returned } }
    | .returned => none

/-- Whether a step of a Future belongs to the goroutine that calls `Run` and `Get`. -/
def Label.isCaller : Label → Bool
  | .callRun | .callGet | .caller => true
  | _ => false

/-- One step of the Future of worker `i`.  The steps of its caller are those of
the worker inside `f.Await()`: `Run`, then `Get` once. -/
def Executor.future (i : Nat) (l : Label) (e : Executor) : Option Executor :=
  match e.workers[i]? with
  | none => none
  | some w =>
    if l.isCaller ∧ ¬ (w.pc = .l65 ∧ (l = .callGet → w.fut.gets = [])) then none
    else
      match step l w.fut with
      | none => none
      | some g => some { e with workers := e.workers.set i { w with fut := g },
                                panicked := g.panicked }

/-- The steps of a schedule of an Executor: the calls of its methods made by
clients, one after the other, and the steps of the workers and of their Futures. -/
inductive ELabel where
  /-- a client calls `Start()` -/
  | start
  /-- a client calls `Stop()` -/
  | stop
  /-- a client calls `Execute(NewFuture(op, timeout))` -/
  | execute (op : Operation)
  /-- worker `i` executes its next statement -/
  | worker (i : Nat)
  /-- a goroutine of the Future of worker `i` makes the step `l` -/
  | future (i : Nat) (l : Label)
  deriving DecidableEq, Repr

/-- One step of the Executor; `none` when the step is not enabled. -/
def estep (limit : Nat) (l : ELabel) (e : Executor) : Option Executor :=
  if e.panicked then none else
  match l with
  | .start => some (Start limit e).state
  | .stop => some (Stop e).state
  | .execute op => some (Execute e (NewFuture op)).state
  | .worker i => Executor.worker i e
  | .future i l => Executor.future i l e

/-- Run a schedule of the Executor. -/
def eexec (limit : Nat) : List ELabel → Executor → Option Executor
  | [], e => some e
  | l :: ls, e => (estep limit l e).bind (eexec limit ls)

/-- Whether a worker holds a concurrency slot: it has sent on the semaphore and
has not yet received from it. -/
def Worker.holding (w : Worker) : Bool :=
  w.pc = .l65 || w.pc = .l66

/-- Whether the Operation of the worker's Future is executing. -/
def Worker.executing (w : Worker) : Bool :=
  w.fut.runPc = .l98

/-- Number of workers holding a slot. -/
def Executor.holders (e : Executor) : Nat :=
  e.workers.countP Worker.holding

/-- Number of Futures inside their Operation. -/
def Executor.executingCount (e : Executor) : Nat :=
  e.workers.countP Worker.executing

/-- Method `Get(total, duration)` of the Executor.  `arrivals` lists the Futures
that the `select` receives from `e.Listen()` before it takes the case
`<-timeout.C`, in order; when they are exhausted the timeout case is taken. -/
def getLoop {F : Type} (total : Int) (fs : List F) : List F → List F × Option Error
  | [] => (fs, some .ErrGetTimedOut)
  | f :: rest =>
      if ((fs ++ [f]).length : Int) = total then (fs ++ [f], none)
      else getLoop total (fs ++ [f]) rest

/-- Method `Get`: the loop started with `var fs []Future`. -/
def Get {F : Type} (total : Int) (arrivals : List F) : List F × Option Error :=
  getLoop total [] arrivals

/-! ## The steps of a Future as a relation, and invariants of its paths -/

/-- The step function as a relation, one rule per source statement. -/
inductive Step : Label → Future → Future → Prop
  | callRun (f : Future) : f.panicked = false → f.callerPc = .fresh →
      Step .callRun f { f with callerPc := .l72 }
  | callGet (f : Future) : f.panicked = false → f.callerPc = .ready →
      Step .callGet f { f with callerPc := .l65 }
  | caller72 (f : Future) : f.panicked = false → f.callerPc = .l72 →
      Step .caller f { f with callerPc := .l73, tickPc := .l77 }
  | caller73 (f : Future) : f.panicked = false → f.callerPc = .l73 →
      Step .caller f { f with callerPc := .ready, runPc := .l98 }
  | caller65t (f : Future) : f.panicked = false → f.callerPc = .l65 → f.completed = true →
      Step .caller f { f with callerPc := .l68 }
  | caller65f (f : Future) : f.panicked = false → f.callerPc = .l65 → f.completed = false →
      Step .caller f { f with callerPc := .l66 }
  | caller66 (f : Future) : f.panicked = false → f.callerPc = .l66 → f.done = .closed →
      Step .caller f { f with callerPc := .l68 }
  | caller68 (f : Future) : f.panicked = false → f.callerPc = .l68 →
      Step .caller f { f with callerPc := .ready, gets := f.gets ++ [(f.result, f.err)] }
  | callKill (f : Future) : f.panicked = false → f.killerPc = .ready →
      Step .callKill f { f with killerPc := .l52 }
  | killer52t (f : Future) : f.panicked = false → f.killerPc = .l52 → f.completed = true →
      Step .killer f { f with killerPc := .l53 }
  | killer52f (f : Future) : f.panicked = false → f.killerPc = .l52 → f.completed = false →
      Step .killer f { f with killerPc := .l55 }
  | killer53 (f : Future) : f.panicked = false → f.killerPc = .l53 →
      Step .killer f { f with killerPc := .ready, kills := f.kills ++ [f.killed] }
  | killer55 (f : Future) : f.panicked = false → f.killerPc = .l55 → f.kill = .closed →
      Step .killer f { f with panicked := true }
  | killer56 (f : Future) : f.panicked = false → f.killerPc = .l56 →
      Step .killer f { f with killerPc := .ready, kills := f.kills ++ [true] }
  | tick77 (f : Future) : f.panicked = false → f.tickPc = .l77 →
      Step .tick f { f with tickPc := .l79 }
  | tick79 (f : Future) : f.panicked = false → f.tickPc = .l79 → f.kill = .closed →
      Step .tick f { f with tickPc := .l88 }
  | tick81t (f : Future) : f.panicked = false → f.tickPc = .l81 →
      (f.completed || f.killed) = true → Step .tick f { f with tickPc := .returned }
  | tick81f (f : Future) : f.panicked = false → f.tickPc = .l81 →
      (f.completed || f.killed) = false → Step .tick f { f with tickPc := .l84 }
  | tick84 (f : Future) : f.panicked = false → f.tickPc = .l84 →
      Step .tick f { f with timedout := true, tickPc := .l85 }
  | tick85 (f : Future) : f.panicked = false → f.tickPc = .l85 →
      Step .tick f { f with err := some .ErrFutureTimedOut, tickPc := .l109 }
  | tick88t (f : Future) : f.panicked = false → f.tickPc = .l88 → f.isDone = true →
      Step .tick f { f with tickPc := .returned }
  | tick88f (f : Future) : f.panicked = false → f.tickPc = .l88 → f.isDone = false →
      Step .tick f { f with tickPc := .l91 }
  | tick91 (f : Future) : f.panicked = false → f.tickPc = .l91 →
      Step .tick f { f with killed := true, tickPc := .l109 }
  | tick109p (f : Future) : f.panicked = false → f.tickPc = .l109 → f.kill = .closed →
      Step .tick f { f with panicked := true }
  | tick109 (f : Future) : f.panicked = false → f.tickPc = .l109 → f.kill = .opened →
      Step .tick f { f with kill := .closed, tickPc := .l110 }
  | tick110p (f : Future) : f.panicked = false → f.tickPc = .l110 → f.done = .closed →
      Step .tick f { f with panicked := true }
  | tick110 (f : Future) : f.panicked = false → f.tickPc = .l110 → f.done = .opened →
      Step .tick f { f with done := .closed, tickPc := .returned }
  | timer (f : Future) : f.panicked = false → f.tickPc = .l79 →
      Step .timer f { f with tickPc := .l81 }
  | opReturn (f : Future) : f.panicked = false → f.runPc = .l98 →
      Step .opReturn f { f with runPc := .l99 }
  | run99t (f : Future) : f.panicked = false → f.runPc = .l99 → f.isDone = true →
      Step .run f { f with runPc := .l109 }
  | run99f (f : Future) : f.panicked = false → f.runPc = .l99 → f.isDone = false →
      Step .run f { f with runPc := .l102 }
  | run102 (f : Future) : f.panicked = false → f.runPc = .l102 →
      Step .run f { f with result := f.op.result, runPc := .l103 }
  | run103 (f : Future) : f.panicked = false → f.runPc = .l103 →
      Step .run f { f with err := f.op.err, runPc := .l104 }
  | run104 (f : Future) : f.panicked = false → f.runPc = .l104 →
      Step .run f { f with completed := true, runPc := .l105 }
  | run105p (f : Future) : f.panicked = false → f.runPc = .l105 → f.done = .closed →
      Step .run f { f with panicked := true }
  | run109p (f : Future) : f.panicked = false → f.runPc = .l109 → f.kill = .closed →
      Step .run f { f with panicked := true }
  | run109 (f : Future) : f.panicked = false → f.runPc = .l109 → f.kill = .opened →
      Step .run f { f with kill := .closed, runPc := .l110 }
  | run110p (f : Future) : f.panicked = false → f.runPc = .l110 → f.done = .closed →
      Step .run f { f with panicked := true }
  | run110 (f : Future) : f.panicked = false → f.runPc = .l110 → f.done = .opened →
      Step .run f { f with done := .closed, runPc := .returned }
  | killHandoff (f : Future) : f.panicked = false → f.killerPc = .l55 → f.tickPc = .l79 →
      f.kill = .opened → Step .killHandoff f { f with killerPc := .l56, tickPc := .l88 }
  | doneHandoff (f : Future) : f.panicked = false → f.runPc = .l105 → f.callerPc = .l66 →
      f.done = .opened → Step .doneHandoff f { f with runPc := .l109, callerPc := .l68 }

/-- Invariant of the schedules without `timer` and without `callKill`:
only the run path can resolve the Future. -/
def RunQuiet (f : Future) : Prop :=
  f.killed = false ∧ f.timedout = false ∧ f.panicked = false ∧
  f.killerPc = .ready ∧ f.kills = [] ∧
  (∀ p ∈ f.gets, p = (f.op.result, f.op.err)) ∧
  (f.tickPc = .idle ∨ f.tickPc = .l77 ∨ f.tickPc = .l79 ∨ f.tickPc = .l88 ∨
    f.tickPc = .returned) ∧
  (f.tickPc = .l88 → f.completed = true) ∧
  (f.tickPc = .idle → f.callerPc = .fresh ∨ f.callerPc = .l72) ∧
  (f.completed = true →
    f.runPc = .l105 ∨ f.runPc = .l109 ∨ f.runPc = .l110 ∨ f.runPc = .returned) ∧
  (f.runPc = .l105 ∨ f.runPc = .l109 ∨ f.runPc = .l110 ∨ f.runPc = .returned →
    f.completed = true ∧ f.result = f.op.result ∧ f.err = f.op.err) ∧
  (f.runPc = .l103 ∨ f.runPc = .l104 → f.result = f.op.result) ∧
  (f.runPc = .l104 → f.err = f.op.err) ∧
  (f.kill = .closed → f.runPc = .l110 ∨ f.runPc = .returned) ∧
  (f.done = .closed → f.runPc = .returned) ∧
  (f.callerPc = .fresh ∨ f.callerPc = .l72 ∨ f.callerPc = .l73 → f.runPc = .idle) ∧
  (f.callerPc = .l68 → f.completed = true) ∧
  (f.callerPc = .l66 → f.runPc ≠ .l109 ∧ f.runPc ≠ .l110 ∧ f.runPc ≠ .returned) ∧
  (f.gets ≠ [] → f.completed = true)

/-- Invariant of every schedule once the run path resolved the Future alone. -/
def CompletedInv (f : Future) : Prop :=
  f.completed = true ∧ f.killed = false ∧ f.timedout = false ∧ f.panicked = false ∧
  f.result = f.op.result ∧ f.err = f.op.err ∧
  (∀ p ∈ f.gets, p = (f.op.result, f.op.err)) ∧ (∀ b ∈ f.kills, b = false) ∧
  (f.tickPc = .l77 ∨ f.tickPc = .l79 ∨ f.tickPc = .l81 ∨ f.tickPc = .l88 ∨
    f.tickPc = .returned) ∧
  (f.runPc = .l105 ∨ f.runPc = .l109 ∨ f.runPc = .l110 ∨ f.runPc = .returned) ∧
  (f.killerPc = .ready ∨ f.killerPc = .l52 ∨ f.killerPc = .l53) ∧
  (f.callerPc = .ready ∨ f.callerPc = .l65 ∨ f.callerPc = .l66 ∨ f.callerPc = .l68) ∧
  (f.kill = .closed → f.runPc = .l110 ∨ f.runPc = .returned) ∧
  (f.done = .closed → f.runPc = .returned) ∧
  (f.callerPc = .l66 → f.runPc = .l105)

/-- Invariant of the schedules without `opReturn` and without `callKill`:
only the timer path can resolve the Future. -/
def TimerQuiet (f : Future) : Prop :=
  f.completed = false ∧ f.killed = false ∧ f.panicked = false ∧
  f.killerPc = .ready ∧ f.kills = [] ∧ f.result = none ∧
  (f.runPc = .idle ∨ f.runPc = .l98) ∧
  (f.tickPc = .idle ∨ f.tickPc = .l77 ∨ f.tickPc = .l79 ∨ f.tickPc = .l81 ∨
    f.tickPc = .l84 ∨ f.tickPc = .l85 ∨ f.tickPc = .l109 ∨ f.tickPc = .l110 ∨
    f.tickPc = .returned) ∧
  (f.tickPc = .l85 ∨ f.tickPc = .l109 ∨ f.tickPc = .l110 ∨ f.tickPc = .returned →
    f.timedout = true) ∧
  (f.tickPc = .l109 ∨ f.tickPc = .l110 ∨ f.tickPc = .returned →
    f.err = some .ErrFutureTimedOut) ∧
  (f.kill = .closed → f.tickPc = .l110 ∨ f.tickPc = .returned) ∧
  (f.tickPc = .l110 ∨ f.tickPc = .returned → f.kill = .closed) ∧
  (f.done = .closed → f.tickPc = .returned) ∧
  (f.tickPc = .returned → f.done = .closed) ∧
  (f.callerPc = .l68 → f.tickPc = .returned) ∧
  (f.gets ≠ [] → f.tickPc = .returned) ∧
  (∀ p ∈ f.gets, p = (none, some .ErrFutureTimedOut)) ∧
  (f.callerPc = .fresh ∨ f.callerPc = .l72 → f.tickPc = .idle) ∧
  (f.callerPc = .fresh ∨ f.callerPc = .l72 ∨ f.callerPc = .l73 → f.runPc = .idle)

/-- Invariant of every schedule once the timer path resolved the Future alone
and `tick` has returned. -/
def TimedOutInv (f : Future) : Prop :=
  f.timedout = true ∧ f.completed = false ∧ f.killed = false ∧
  f.result = none ∧ f.err = some .ErrFutureTimedOut ∧
  f.tickPc = .returned ∧ f.kill = .closed ∧ f.done = .closed ∧
  (f.runPc = .idle ∨ f.runPc = .l98 ∨ f.runPc = .l99 ∨ f.runPc = .l109) ∧
  (f.callerPc = .l73 ∨ f.callerPc = .ready ∨ f.callerPc = .l65 ∨ f.callerPc = .l66 ∨
    f.callerPc = .l68) ∧
  (f.callerPc = .l73 → f.runPc = .idle) ∧
  (f.killerPc = .ready ∨ f.killerPc = .l52 ∨ f.killerPc = .l55) ∧
  f.kills = [] ∧
  (∀ p ∈ f.gets, p = (none, some .ErrFutureTimedOut))

/-- Invariant of the schedules without `timer` and without `opReturn`:
only the kill path can resolve the Future. -/
def KillQuiet (f : Future) : Prop :=
  f.completed = false ∧ f.timedout = false ∧ f.result = none ∧ f.err = none ∧
  (f.runPc = .idle ∨ f.runPc = .l98) ∧
  (f.tickPc = .idle ∨ f.tickPc = .l77 ∨ f.tickPc = .l79 ∨ f.tickPc = .l88 ∨
    f.tickPc = .l91 ∨ f.tickPc = .l109 ∨ f.tickPc = .l110 ∨ f.tickPc = .returned) ∧
  (f.killed = true → f.tickPc = .l109 ∨ f.tickPc = .l110 ∨ f.tickPc = .returned) ∧
  (f.tickPc = .l109 ∨ f.tickPc = .l110 ∨ f.tickPc = .returned → f.killed = true) ∧
  (f.kill = .closed → f.tickPc = .l110 ∨ f.tickPc = .returned) ∧
  (f.tickPc = .l110 ∨ f.tickPc = .returned → f.kill = .closed) ∧
  (f.done = .closed → f.tickPc = .returned) ∧
  (f.tickPc = .idle ∨ f.tickPc = .l77 ∨ f.tickPc = .l79 →
    f.kills = [] ∧ f.killerPc ≠ .l56 ∧ f.panicked = false) ∧
  (f.kills = [] → f.panicked = false) ∧
  (f.kills = [] ∧ f.killerPc ≠ .l56 →
    f.tickPc = .idle ∨ f.tickPc = .l77 ∨ f.tickPc = .l79) ∧
  f.killerPc ≠ .l53 ∧
  (∀ b ∈ f.kills, b = true) ∧
  (∀ p ∈ f.gets, p = (none, none)) ∧
  (f.callerPc = .fresh ∨ f.callerPc = .l72 → f.tickPc = .idle) ∧
  (f.tickPc = .idle → f.callerPc = .fresh ∨ f.callerPc = .l72) ∧
  (f.callerPc = .fresh ∨ f.callerPc = .l72 ∨ f.callerPc = .l73 → f.runPc = .idle)

/-- Invariant of every schedule once the kill path resolved the Future alone. -/
def KilledInv (f : Future) : Prop :=
  f.killed = true ∧ f.completed = false ∧ f.timedout = false ∧
  f.result = none ∧ f.err = none ∧
  (f.tickPc = .l109 ∨ f.tickPc = .l110 ∨ f.tickPc = .returned) ∧
  (f.runPc = .idle ∨ f.runPc = .l98 ∨ f.runPc = .l99 ∨ f.runPc = .l109 ∨
    f.runPc = .l110 ∨ f.runPc = .returned) ∧
  (f.callerPc = .l73 ∨ f.callerPc = .ready ∨ f.callerPc = .l65 ∨ f.callerPc = .l66 ∨
    f.callerPc = .l68) ∧
  (f.callerPc = .l73 → f.runPc = .idle) ∧
  f.killerPc ≠ .l53 ∧
  (∀ b ∈ f.kills, b = true) ∧
  (∀ p ∈ f.gets, p = (none, none))

/-- Number of statements the caller still has to execute to return from `Get`. -/
def CallerPc.rank : CallerPc → Nat
  | .fresh => 7 | .l72 => 6 | .l73 => 5 | .ready => 4 | .l65 => 3 | .l66 => 2 | .l68 => 1

/-- Number of statements `run` still has to execute. -/
def RunPc.rank : RunPc → Nat
  | .idle => 9 | .l98 => 8 | .l99 => 7 | .l102 => 6 | .l103 => 5 | .l104 => 4 | .l105 => 3
  | .l109 => 2 | .l110 => 1 | .returned => 0

/-- Number of statements `tick` still has to execute. -/
def TickPc.rank : TickPc → Nat
  | .idle => 10 | .l77 => 9 | .l79 => 8 | .l81 => 7 | .l84 => 6 | .l85 => 5 | .l88 => 4
  | .l91 => 3 | .l109 => 2 | .l110 => 1 | .returned => 0

/-- Number of statements `Kill` still has to execute. -/
def KillerPc.rank : KillerPc → Nat
  | .l52 => 3 | .l55 => 2 | .l56 => 1 | .l53 => 1 | .ready => 0

/-- Measure that decreases along the steps used to drive a call to its return. -/
def Future.rank (f : Future) : Nat :=
  f.callerPc.rank + f.runPc.rank + f.tickPc.rank + f.killerPc.rank

/-! ## Example inputs -/

/-- An Operation that returns `(7, nil)`. -/
def demoOp : Operation := { result := some 7, err := none }

/-- Schedule: `Run`, `Get` blocks on `done`, the Operation returns and `run` stores its pair. -/
def runFirst : List Label :=
  [.callRun, .caller, .caller, .callGet, .caller, .tick, .opReturn, .run, .run, .run, .run]

/-- State after `runFirst`. -/
def runFirstState : Future :=
  { op := demoOp, completed := true, killed := false, timedout := false,
    done := .opened, kill := .opened, result := some 7, err := none,
    tickPc := .l79, runPc := .l105, callerPc := .l66, killerPc := .ready,
    gets := [], kills := [], panicked := false }

/-- Schedule after `runFirst`: `Get` returns, the timer fires, `Kill` is called, `run` closes. -/
def runFirstRest : List Label :=
  [.doneHandoff, .caller, .timer, .tick, .callKill, .killer, .killer, .run, .run]

/-- State after `runFirst` and `runFirstRest`. -/
def runFirstEnd : Future :=
  { op := demoOp, completed := true, killed := false, timedout := false,
    done := .closed, kill := .closed, result := some 7, err := none,
    tickPc := .returned, runPc := .returned, callerPc := .ready, killerPc := .ready,
    gets := [(some 7, none)], kills := [false], panicked := false }

/-- Schedule: `Run`, `Get` blocks, the timer fires, `tick` resolves the Future, `Get` returns. -/
def timerFirst : List Label :=
  [.callRun, .caller, .caller, .callGet, .caller, .tick, .timer, .tick, .tick, .tick, .tick,
    .tick, .caller, .caller]

/-- State after `timerFirst`. -/
def timerFirstState : Future :=
  { op := demoOp, completed := false, killed := false, timedout := true,
    done := .closed, kill := .closed, result := none, err := some .ErrFutureTimedOut,
    tickPc := .returned, runPc := .l98, callerPc := .ready, killerPc := .ready,
    gets := [(none, some .ErrFutureTimedOut)], kills := [], panicked := false }

/-- State after `timerFirst` and then the return of the Operation, `[opReturn, run, run]`. -/
def timerFirstEnd : Future :=
  { op := demoOp, completed := false, killed := false, timedout := true,
    done := .closed, kill := .closed, result := none, err := some .ErrFutureTimedOut,
    tickPc := .returned, runPc := .l109, callerPc := .ready, killerPc := .ready,
    gets := [(none, some .ErrFutureTimedOut)], kills := [], panicked := true }

/-- Schedule: `Run`, `Kill` hands its signal to `tick`, `Kill` returns, `tick` marks the Future. -/
def killFirst : List Label :=
  [.callRun, .caller, .caller, .tick, .callKill, .killer, .killHandoff, .killer, .tick, .tick]

/-- State after `killFirst`. -/
def killFirstState : Future :=
  { op := demoOp, completed := false, killed := true, timedout := false,
    done := .opened, kill := .opened, result := none, err := none,
    tickPc := .l109, runPc := .l98, callerPc := .ready, killerPc := .ready,
    gets := [], kills := [true], panicked := false }

/-- State after `killFirst`, the two closes of `tick`, and the return of the Operation. -/
def killFirstEnd : Future :=
  { op := demoOp, completed := false, killed := true, timedout := false,
    done := .closed, kill := .closed, result := none, err := none,
    tickPc := .returned, runPc := .l109, callerPc := .ready, killerPc := .ready,
    gets := [], kills := [true], panicked := true }

/-- State after `runFirst` and the return of `Get`. -/
def runFirstGot : Future :=
  { op := demoOp, completed := true, killed := false, timedout := false,
    done := .opened, kill := .opened, result := some 7, err := none,
    tickPc := .l79, runPc := .l109, callerPc := .ready, killerPc := .ready,
    gets := [(some 7, none)], kills := [], panicked := false }

/-- Schedule: `Await` is called and the Operation returns; then the timer fires and
`tick` passes its test (line 81) before `run` has marked the Future completed, while
`run` passes its own test (line 99) before `tick` has marked it timed out. -/
def returnThenTimer : List Label :=
  [.callRun, .caller, .caller, .callGet, .caller, .tick, .opReturn, .timer, .tick, .run,
    .tick, .run, .run, .tick, .run, .doneHandoff, .caller]

/-- Schedule: `Await` is called and the timer fires; then the Operation returns and
`run` passes its test (line 99) before `tick` has marked the Future timed out, while
`tick` passes its own test (line 81) before `run` has marked it completed. -/
def timerThenReturn : List Label :=
  [.callRun, .caller, .caller, .callGet, .caller, .tick, .timer, .opReturn, .run, .tick,
    .tick, .tick, .run, .run, .run, .doneHandoff, .caller]

/-- State of a Future on which `Kill` was called and `Run` was not: `Kill` has tested
`f.completed` and waits at its send on `kill` (line 55). -/
def killPending : Future :=
  { op := demoOp, completed := false, killed := false, timedout := false,
    done := .opened, kill := .opened, result := none, err := none,
    tickPc := .idle, runPc := .idle, callerPc := .fresh, killerPc := .l55,
    gets := [], kills := [], panicked := false }

/-! ## Invariants of the Executor -/

/-- Values returned by the calls of `Start` in a schedule, in order. -/
def startReturns (limit : Nat) : List ELabel → Executor → List Bool
  | [], _ => []
  | l :: ls, e =>
    match estep limit l e with
    | none => []
    | some e' =>
        (if l = .start then (Start limit e).returned.toList else []) ++
          startReturns limit ls e'

/-- Capacity limit of the examples.  On a 64-bit platform `make(chan bool, n)` panics
at least for every `n` from `2 ^ 48` on, so this is the most that a limit can be
there. -/
def limit64 : Nat := 2 ^ 48 - 1

/-- Invariant of a Future under every schedule: what is known of its Operation
once `Get` has returned. -/
def FutureInv (f : Future) : Prop :=
  (f.callerPc = .fresh ∨ f.callerPc = .l72 ∨ f.callerPc = .l73 →
    f.gets = [] ∧ f.runPc = .idle) ∧
  (f.completed = true → f.runPc ≠ .idle ∧ f.runPc ≠ .l98) ∧
  (f.callerPc = .l68 ∨ f.gets ≠ [] → f.runPc = .l98 → f.done = .closed) ∧
  (f.done = .closed → f.runPc = .returned ∨ f.timedout = true ∨ f.killed = true) ∧
  (f.tickPc = .l85 ∨ f.tickPc = .l109 ∨ f.tickPc = .l110 →
    f.timedout = true ∨ f.killed = true)

/-- Invariant of a worker: before line 65 its Future is untouched, after line 65
the `Get` of `Await` has returned. -/
def WorkerInv (w : Worker) : Prop :=
  FutureInv w.fut ∧
  (w.pc = .l64 → w.fut.callerPc = .fresh) ∧
  (w.pc = .l66 ∨ w.pc = .l67 ∨ w.pc = .returned → w.fut.gets ≠ [])

/-- Invariant of the Executor under every schedule: before `Start` nothing is
allocated; afterwards the semaphore buffers one value per worker holding a slot,
and until `Stop` every channel is open and the dispatch loop waits in its `select`. -/
def ExecInv (e : Executor) : Prop :=
  (e.started = false →
    e.semaphore = none ∧ e.kill = none ∧ e.buffer = none ∧ e.out = none ∧
    e.loopPc = .idle ∧ e.workers = []) ∧
  (e.started = true →
    ∃ s, e.semaphore = some s ∧ s.cap = e.max ∧ s.count = e.holders ∧ s.count ≤ s.cap ∧
      (e.stopped = false →
        s.closed = false ∧ e.kill = some .opened ∧ e.buffer = some .opened ∧
        e.out = some .opened ∧ e.loopPc = .l58)) ∧
  (∀ w ∈ e.workers, WorkerInv w)

/-- Schedule on an Executor of capacity 1: the first Future times out inside `Await`,
its worker releases the slot, and the second Future starts its Operation while the
Operation of the first is still executing. -/
def overlap : List ELabel :=
  [.execute demoOp, .execute demoOp, .worker 0,
    .future 0 .callRun, .future 0 .caller, .future 0 .caller, .future 0 .callGet,
    .future 0 .caller, .future 0 .tick, .future 0 .timer, .future 0 .tick,
    .future 0 .tick, .future 0 .tick, .future 0 .tick, .future 0 .tick,
    .future 0 .caller, .future 0 .caller, .worker 0, .worker 0, .worker 1,
    .future 1 .callRun, .future 1 .caller, .future 1 .caller]

/-! ## Proofs -/

theorem Chan.ne_closed {c : Chan} (h : ¬ c = .closed) : c = .opened := by
  cases c <;> simp_all

theorem await_sound {f g : Future} (hp : f.panicked = false) (h : f.Await = some g) :
    Step .caller f g := by
  unfold Future.Await at h
  split at h
  · rename_i hc
    simp only [Future.Run, hc, Option.some.injEq] at h
    exact h ▸ Step.caller72 f hp hc
  · rename_i hc
    simp only [Future.Run, hc, Option.some.injEq] at h
    exact h ▸ Step.caller73 f hp hc
  · unfold Future.Get at h
    split at h
    · rename_i hc
      split at h
      · rename_i hcomp
        simp only [Option.some.injEq] at h
        exact h ▸ Step.caller65t f hp hc hcomp
      · rename_i hcomp
        simp only [Option.some.injEq] at h
        exact h ▸ Step.caller65f f hp hc (by simpa using hcomp)
    · rename_i hc
      split at h
      · rename_i hd
        simp only [Option.some.injEq] at h
        exact h ▸ Step.caller66 f hp hc hd
      · cases h
    · rename_i hc
      simp only [Option.some.injEq] at h
      exact h ▸ Step.caller68 f hp hc
    · cases h

theorem step_sound {l : Label} {f g : Future} (h : step l f = some g) : Step l f g := by
  unfold step at h
  split at h
  · cases h
  · rename_i hp
    simp only [Bool.not_eq_true] at hp
    cases l <;> simp only [Future.Kill, Future.tick, Future.run] at h <;>
      first
        | exact await_sound hp h
        | (split at h <;> (try split at h) <;> (try cases h) <;>
            first
              | (constructor <;> (simp_all; done))
              | (apply Step.tick88t <;> (simp_all; done))
              | (apply Step.tick110p <;> (simp_all; done))
              | (apply Step.run109p <;> (simp_all; done))
              | (apply Step.run110p <;> (simp_all; done))
              | (apply Step.tick109 <;> (simp_all [Chan.ne_closed]; done))
              | (apply Step.tick110 <;> (simp_all [Chan.ne_closed]; done))
              | (apply Step.run109 <;> (simp_all [Chan.ne_closed]; done))
              | (apply Step.run110 <;> (simp_all [Chan.ne_closed]; done)))

theorem pair_mem_or {α β : Type} {l : List (α × β)} {x r : α} {y e : β}
    (h : ∀ a b, (a, b) ∈ l → a = x ∧ b = y) (hr : r = x) (he : e = y) :
    ∀ a b, (a, b) ∈ l ∨ a = r ∧ b = e → a = x ∧ b = y := by
  intro a b hab
  rcases hab with hab | ⟨ha, hb⟩
  · exact h a b hab
  · exact ⟨ha.trans hr, hb.trans he⟩

theorem all_append {α : Type} {l : List α} {a x : α} (h : ∀ p ∈ l, p = x) (ha : a = x) :
    ∀ p ∈ l ++ [a], p = x := by
  intro p hp
  rcases List.mem_append.mp hp with hp | hp
  · exact h p hp
  · rw [List.mem_singleton.mp hp, ha]

set_option maxHeartbeats 8000000 in
theorem runQuiet_step {l : Label} {f g : Future} (h : step l f = some g) (hl : l ≠ .timer) (hk : l ≠ .callKill)
    (hi : RunQuiet f) : RunQuiet g := by
  have hs := step_sound h
  clear h
  obtain ⟨op, completed, killed, timedout, done, kill, result, err, tickPc, runPc, callerPc,
    killerPc, gets, kills, panicked⟩ := f
  obtain ⟨h1, h2, h3, h4, h5, h6, h7, h8, h9, h10, h11, h12, h13, h14, h15, h16, h17, h18, h19⟩ := hi
  simp only at h1 h2 h3 h4 h5 h6 h7 h8 h9 h10 h11 h12 h13 h14 h15 h16 h17 h18 h19
  unfold RunQuiet
  cases hs <;>
    (first | exact absurd rfl hl | exact absurd rfl hk | skip) <;>
    simp only [Future.isDone] at * <;> subst_vars <;> (try simp at *) <;>
    (repeat' apply And.intro) <;>
    first
      | assumption
      | (simp_all; done)
      | exact pair_mem_or (by assumption) (by first | rfl | simp_all) (by first | rfl | simp_all)
      | (cases tickPc <;> simp_all; done)
      | (cases runPc <;> simp_all; done)
      | (cases callerPc <;> simp_all; done)
      | (cases killerPc <;> simp_all; done)

set_option maxHeartbeats 8000000 in
theorem completedInv_step {l : Label} {f g : Future} (h : step l f = some g)
    (hi : CompletedInv f) : CompletedInv g := by
  have hs := step_sound h
  clear h
  obtain ⟨op, completed, killed, timedout, done, kill, result, err, tickPc, runPc, callerPc,
    killerPc, gets, kills, panicked⟩ := f
  obtain ⟨h1, h2, h3, h4, h5, h6, h7, h8, h9, h10, h11, h12, h13, h14, h15⟩ := hi
  simp only at h1 h2 h3 h4 h5 h6 h7 h8 h9 h10 h11 h12 h13 h14 h15
  unfold CompletedInv
  cases hs <;>
    simp only [Future.isDone] at * <;> subst_vars <;> (try simp at *) <;>
    (repeat' apply And.intro) <;>
    first
      | assumption
      | (simp_all; done)
      | exact pair_mem_or (by assumption) (by first | rfl | simp_all) (by first | rfl | simp_all)
      | (cases tickPc <;> simp_all; done)
      | (cases runPc <;> simp_all; done)
      | (cases callerPc <;> simp_all; done)
      | (cases killerPc <;> simp_all; done)

set_option maxHeartbeats 8000000 in
theorem timerQuiet_step {l : Label} {f g : Future} (h : step l f = some g) (hl : l ≠ .opReturn) (hk : l ≠ .callKill)
    (hi : TimerQuiet f) : TimerQuiet g := by
  have hs := step_sound h
  clear h
  obtain ⟨op, completed, killed, timedout, done, kill, result, err, tickPc, runPc, callerPc,
    killerPc, gets, kills, panicked⟩ := f
  obtain ⟨h1, h2, h3, h4, h5, h6, h7, h8, h9, h10, h11, h12, h13, h14, h15, h16, h17, h18, h19⟩ := hi
  simp only at h1 h2 h3 h4 h5 h6 h7 h8 h9 h10 h11 h12 h13 h14 h15 h16 h17 h18 h19
  unfold TimerQuiet
  cases hs <;>
    (first | exact absurd rfl hl | exact absurd rfl hk | skip) <;>
    simp only [Future.isDone] at * <;> subst_vars <;> (try simp at *) <;>
    (repeat' apply And.intro) <;>
    first
      | assumption
      | (simp_all; done)
      | exact pair_mem_or (by assumption) (by first | rfl | simp_all) (by first | rfl | simp_all)
      | (cases tickPc <;> simp_all; done)
      | (cases runPc <;> simp_all; done)
      | (cases callerPc <;> simp_all; done)
      | (cases killerPc <;> simp_all; done)

set_option maxHeartbeats 8000000 in
theorem timedOutInv_step {l : Label} {f g : Future} (h : step l f = some g)
    (hi : TimedOutInv f) : TimedOutInv g := by
  have hs := step_sound h
  clear h
  obtain ⟨op, completed, killed, timedout, done, kill, result, err, tickPc, runPc, callerPc,
    killerPc, gets, kills, panicked⟩ := f
  obtain ⟨h1, h2, h3, h4, h5, h6, h7, h8, h9, h10, h11, h12, h13, h14⟩ := hi
  simp only at h1 h2 h3 h4 h5 h6 h7 h8 h9 h10 h11 h12 h13 h14
  unfold TimedOutInv
  cases hs <;>
    simp only [Future.isDone] at * <;> subst_vars <;> (try simp at *) <;>
    (repeat' apply And.intro) <;>
    first
      | assumption
      | (simp_all; done)
      | exact pair_mem_or (by assumption) (by first | rfl | simp_all) (by first | rfl | simp_all)
      | (cases tickPc <;> simp_all; done)
      | (cases runPc <;> simp_all; done)
      | (cases callerPc <;> simp_all; done)
      | (cases killerPc <;> simp_all; done)

set_option maxHeartbeats 8000000 in
theorem killQuiet_step {l : Label} {f g : Future} (h : step l f = some g) (hl : l ≠ .timer) (hk : l ≠ .opReturn)
    (hi : KillQuiet f) : KillQuiet g := by
  have hs := step_sound h
  clear h
  obtain ⟨op, completed, killed, timedout, done, kill, result, err, tickPc, runPc, callerPc,
    killerPc, gets, kills, panicked⟩ := f
  obtain ⟨h1, h2, h3, h4, h5, h6, h7, h8, h9, h10, h11, h12, h13, h14, h15, h16, h17, h18, h19, h20⟩ := hi
  simp only at h1 h2 h3 h4 h5 h6 h7 h8 h9 h10 h11 h12 h13 h14 h15 h16 h17 h18 h19 h20
  unfold KillQuiet
  cases hs <;>
    (first | exact absurd rfl hl | exact absurd rfl hk | skip) <;>
    simp only [Future.isDone] at * <;> subst_vars <;> (try simp at *) <;>
    (repeat' apply And.intro) <;>
    first
      | assumption
      | (simp_all; done)
      | exact pair_mem_or (by assumption) (by first | rfl | simp_all) (by first | rfl | simp_all)
      | (cases tickPc <;> simp_all; done)
      | (cases runPc <;> simp_all; done)
      | (cases callerPc <;> simp_all; done)
      | (cases killerPc <;> simp_all; done)

set_option maxHeartbeats 8000000 in
theorem killedInv_step {l : Label} {f g : Future} (h : step l f = some g)
    (hi : KilledInv f) : KilledInv g := by
  have hs := step_sound h
  clear h
  obtain ⟨op, completed, killed, timedout, done, kill, result, err, tickPc, runPc, callerPc,
    killerPc, gets, kills, panicked⟩ := f
  obtain ⟨h1, h2, h3, h4, h5, h6, h7, h8, h9, h10, h11, h12⟩ := hi
  simp only at h1 h2 h3 h4 h5 h6 h7 h8 h9 h10 h11 h12
  unfold KilledInv
  cases hs <;>
    simp only [Future.isDone] at * <;> subst_vars <;> (try simp at *) <;>
    (repeat' apply And.intro) <;>
    first
      | assumption
      | (simp_all; done)
      | exact pair_mem_or (by assumption) (by first | rfl | simp_all) (by first | rfl | simp_all)
      | (cases tickPc <;> simp_all; done)
      | (cases runPc <;> simp_all; done)
      | (cases callerPc <;> simp_all; done)
      | (cases killerPc <;> simp_all; done)

theorem step_complete {l : Label} {f g : Future} (h : Step l f g) : step l f = some g := by
  cases h <;> simp_all [step, Future.Await, Future.Run, Future.Get, Future.Kill, Future.tick, Future.run]

theorem step_op {l : Label} {f g : Future} (h : step l f = some g) : g.op = f.op := by
  cases step_sound h <;> rfl

theorem exec_nil (f : Future) : exec [] f = some f := rfl

theorem exec_cons (l : Label) (ls : List Label) (f : Future) :
    exec (l :: ls) f = (step l f).bind (exec ls) := rfl

theorem exec_append (l1 l2 : List Label) (f : Future) :
    exec (l1 ++ l2) f = (exec l1 f).bind (exec l2) := by
  induction l1 generalizing f with
  | nil => simp [exec]
  | cons l ls ih =>
    simp only [List.cons_append, exec]
    cases h : step l f with
    | none => simp
    | some g => simp [ih]

theorem exec_invariant {P : Future → Prop} {A : Label → Prop}
    (hstep : ∀ l f g, step l f = some g → A l → P f → P g) :
    ∀ (ls : List Label) (f g : Future), exec ls f = some g → (∀ l ∈ ls, A l) → P f → P g := by
  intro ls
  induction ls with
  | nil =>
    intro f g h _ hp
    simp only [exec, Option.some.injEq] at h
    exact h ▸ hp
  | cons l ls ih =>
    intro f g h hok hp
    rw [exec_cons] at h
    cases hs : step l f with
    | none => simp [hs] at h
    | some m =>
      rw [hs] at h
      exact ih m g h (fun x hx => hok x (List.mem_cons_of_mem _ hx))
        (hstep l f m hs (hok l (List.mem_cons_self _ _)) hp)

theorem exec_op {ls : List Label} {f g : Future} (h : exec ls f = some g) : g.op = f.op := by
  have := exec_invariant (P := fun x => x.op = f.op) (A := fun _ => True)
    (fun l a b hs _ ha => (step_op hs).trans ha) ls f g h (fun _ _ => trivial) rfl
  exact this

/-- An event of the schedule leaves a mark `Q` on the state that later steps keep. -/
theorem exec_track {P Q : Future → Prop} {A : Label → Prop} {E : Label}
    (hinv : ∀ l f g, step l f = some g → A l → P f → P g)
    (hev : ∀ f g, step E f = some g → P f → Q g)
    (hkeep : ∀ l f g, step l f = some g → A l → P f → Q f → Q g) :
    ∀ (ls : List Label) (f g : Future), exec ls f = some g → (∀ l ∈ ls, A l) → P f →
      (E ∈ ls ∨ Q f) → Q g := by
  intro ls
  induction ls with
  | nil =>
    intro f g h _ _ hq
    simp only [exec, Option.some.injEq] at h
    rcases hq with hq | hq
    · simp at hq
    · exact h ▸ hq
  | cons l ls ih =>
    intro f g h hok hp hq
    rw [exec_cons] at h
    cases hs : step l f with
    | none => simp [hs] at h
    | some m =>
      rw [hs] at h
      have hl := hok l (List.mem_cons_self _ _)
      have hpm := hinv l f m hs hl hp
      refine ih m g h (fun x hx => hok x (List.mem_cons_of_mem _ hx)) hpm ?_
      rcases hq with hq | hq
      · rcases List.mem_cons.mp hq with rfl | hq
        · exact Or.inr (hev f m hs hp)
        · exact Or.inl hq
      · exact Or.inr (hkeep l f m hs hl hp hq)

/-- Drive a system to a goal `G` by steps that decrease a rank. -/
theorem drive {P G : Future → Prop} {A : Label → Prop} (rank : Future → Nat)
    (hprog : ∀ s, P s → ∃ l s', A l ∧ step l s = some s' ∧ (G s' ∨ (P s' ∧ rank s' < rank s))) :
    ∀ (n : Nat) (s : Future), rank s ≤ n → P s →
      ∃ more u, (∀ l ∈ more, A l) ∧ exec more s = some u ∧ G u := by
  intro n
  induction n with
  | zero =>
    intro s hn hp
    obtain ⟨l, s', hl, hs, hg | ⟨_, hr⟩⟩ := hprog s hp
    · exact ⟨[l], s', by simpa using hl, by simp [exec, hs], hg⟩
    · omega
  | succ n ih =>
    intro s hn hp
    obtain ⟨l, s', hl, hs, hg | ⟨hp', hr⟩⟩ := hprog s hp
    · exact ⟨[l], s', by simpa using hl, by simp [exec, hs], hg⟩
    · obtain ⟨more, u, hm, he, hg⟩ := ih s' (by omega) hp'
      refine ⟨l :: more, u, ?_, by simp [exec, hs, he], hg⟩
      intro x hx
      rcases List.mem_cons.mp hx with rfl | hx
      · exact hl
      · exact hm x hx

theorem runQuiet_init (op : Operation) : RunQuiet (NewFuture op) := by
  simp [RunQuiet, NewFuture]

theorem timerQuiet_init (op : Operation) : TimerQuiet (NewFuture op) := by
  simp [TimerQuiet, NewFuture]

theorem killQuiet_init (op : Operation) : KillQuiet (NewFuture op) := by
  simp [KillQuiet, NewFuture]

theorem completedInv_of_runQuiet {f : Future} (h : RunQuiet f) (hc : f.completed = true) :
    CompletedInv f := by
  obtain ⟨h1, h2, h3, h4, h5, h6, h7, h8, h9, h10, h11, h12, h13, h14, h15, h16, h17, h18, h19⟩ := h
  have hr := h10 hc
  have hd := h11 hr
  have hcaller : f.callerPc = .ready ∨ f.callerPc = .l65 ∨ f.callerPc = .l66 ∨
      f.callerPc = .l68 := by
    clear * - h16 hr
    cases hcp : f.callerPc <;> simp_all
  have htick : f.tickPc = .l77 ∨ f.tickPc = .l79 ∨ f.tickPc = .l81 ∨ f.tickPc = .l88 ∨
      f.tickPc = .returned := by
    clear * - h7 h9 hcaller
    rcases h7 with h | h | h | h | h
    · rcases h9 h with h' | h' <;> simp [h'] at hcaller
    all_goals simp [h]
  have hl66 : f.callerPc = .l66 → f.runPc = .l105 := by
    clear * - h18 hr
    intro h
    have := h18 h
    rcases hr with hr | hr | hr | hr <;> simp_all
  exact ⟨hc, h1, h2, h3, hd.2.1, hd.2.2, h6, by simp [h5], htick, hr, Or.inl h4, hcaller,
    h14, h15, hl66⟩

theorem timedOutInv_of_timerQuiet {f : Future} (h : TimerQuiet f) (hc : f.tickPc = .returned) :
    TimedOutInv f := by
  obtain ⟨h1, h2, h3, h4, h5, h6, h7, h8, h9, h10, h11, h12, h13, h14, h15, h16, h17, h18, h19⟩ := h
  have hcaller : f.callerPc = .l73 ∨ f.callerPc = .ready ∨ f.callerPc = .l65 ∨
      f.callerPc = .l66 ∨ f.callerPc = .l68 := by
    clear * - h18 hc
    cases hcp : f.callerPc <;> simp_all
  have hrun : f.runPc = .idle ∨ f.runPc = .l98 ∨ f.runPc = .l99 ∨ f.runPc = .l109 := by
    clear * - h7
    rcases h7 with h | h <;> simp [h]
  exact ⟨h9 (by simp [hc]), h1, h2, h6, h10 (by simp [hc]), hc, h12 (by simp [hc]), h14 hc,
    hrun, hcaller, fun h => h19 (by simp [h]), Or.inl h4, h5, h17⟩

theorem killedInv_of_killQuiet {f : Future} (h : KillQuiet f) (hc : f.killed = true) :
    KilledInv f := by
  obtain ⟨h1, h2, h3, h4, h5, h6, h7, h8, h9, h10, h11, h12, h13, h14, h15, h16, h17, h18, h19, h20⟩ := h
  have ht := h7 hc
  have hcaller : f.callerPc = .l73 ∨ f.callerPc = .ready ∨ f.callerPc = .l65 ∨
      f.callerPc = .l66 ∨ f.callerPc = .l68 := by
    clear * - h18 ht
    cases hcp : f.callerPc <;> simp_all
  have hrun : f.runPc = .idle ∨ f.runPc = .l98 ∨ f.runPc = .l99 ∨ f.runPc = .l109 ∨
      f.runPc = .l110 ∨ f.runPc = .returned := by
    clear * - h5
    rcases h5 with h | h <;> simp [h]
  exact ⟨hc, h1, h2, h3, h4, ht, hrun, hcaller, fun h => h20 (by simp [h]), h15, h16, h17⟩

/-- Labels of the steps that neither fire the timer nor call `Kill`. -/
theorem opReturned_keep {l : Label} {f g : Future} (h : step l f = some g)
    (hq : RunQuiet f) (hr : f.runPc ≠ .idle ∧ f.runPc ≠ .l98) :
    g.runPc ≠ .idle ∧ g.runPc ≠ .l98 := by
  have h16 := hq.2.2.2.2.2.2.2.2.2.2.2.2.2.2.2.1
  clear hq
  cases step_sound h <;> simp_all

theorem opReturned_of_mem {op : Operation} {ls : List Label} {s : Future}
    (h : exec ls (NewFuture op) = some s) (hq : ∀ l ∈ ls, l ≠ .timer ∧ l ≠ .callKill)
    (hm : .opReturn ∈ ls) : s.runPc ≠ .idle ∧ s.runPc ≠ .l98 := by
  refine exec_track (P := RunQuiet) (Q := fun f => f.runPc ≠ .idle ∧ f.runPc ≠ .l98)
    (A := fun l => l ≠ .timer ∧ l ≠ .callKill) (E := .opReturn)
    (fun l f g hs hl hp => runQuiet_step hs hl.1 hl.2 hp) ?_
    (fun l f g hs _ hp hr => opReturned_keep hs hp hr) ls _ _ h hq (runQuiet_init op)
    (Or.inl hm)
  intro f g hs _
  cases step_sound hs
  simp

theorem runQuiet_exec {op : Operation} {ls : List Label} {s : Future}
    (h : exec ls (NewFuture op) = some s) (hq : ∀ l ∈ ls, l ≠ .timer ∧ l ≠ .callKill) :
    RunQuiet s :=
  exec_invariant (P := RunQuiet) (A := fun l => l ≠ .timer ∧ l ≠ .callKill)
    (fun l f g hs hl hp => runQuiet_step hs hl.1 hl.2 hp) ls _ _ h hq (runQuiet_init op)

theorem completedInv_exec {ls : List Label} {s t : Future}
    (h : exec ls s = some t) (hs : CompletedInv s) : CompletedInv t :=
  exec_invariant (P := CompletedInv) (A := fun _ => True)
    (fun l f g hs _ hp => completedInv_step hs hp) ls _ _ h (fun _ _ => trivial) hs

/-- While only the run path is active and the Operation has returned, a step of
`run` or of the caller is enabled and brings the return of `Get` closer. -/
theorem run_progress (g0 : List (Option Value × Option Error)) (s : Future)
    (hq : RunQuiet s) (hr : s.runPc ≠ .idle ∧ s.runPc ≠ .l98) (hg : s.gets = g0) :
    ∃ l s', (l = .run ∨ l = .caller ∨ l = .callGet ∨ l = .doneHandoff) ∧
      step l s = some s' ∧
      (s'.gets = g0 ++ [(s.op.result, s.op.err)] ∨
        ((s'.runPc ≠ .idle ∧ s'.runPc ≠ .l98) ∧ s'.gets = g0 ∧ s'.rank < s.rank)) := by
  obtain ⟨h1, h2, h3, h4, h5, h6, h7, h8, h9, h10, h11, h12, h13, h14, h15, h16, h17, h18, h19⟩ := hq
  clear h4 h5 h6 h7 h8 h9 h12 h13 h14 h19
  cases hc : s.callerPc with
  | fresh => exact absurd (h16 (by simp [hc])) hr.1
  | l72 => exact absurd (h16 (by simp [hc])) hr.1
  | l73 => exact absurd (h16 (by simp [hc])) hr.1
  | ready =>
    refine ⟨.callGet, _, by simp, step_complete (Step.callGet s h3 hc), Or.inr ⟨hr, hg, ?_⟩⟩
    simp only [Future.rank, hc, CallerPc.rank]
    omega
  | l65 =>
    cases hcomp : s.completed with
    | true =>
      refine ⟨.caller, _, by simp, step_complete (Step.caller65t s h3 hc hcomp),
        Or.inr ⟨hr, hg, ?_⟩⟩
      simp only [Future.rank, hc, CallerPc.rank]
      omega
    | false =>
      refine ⟨.caller, _, by simp, step_complete (Step.caller65f s h3 hc hcomp),
        Or.inr ⟨hr, hg, ?_⟩⟩
      simp only [Future.rank, hc, CallerPc.rank]
      omega
  | l68 =>
    refine ⟨.caller, _, by simp, step_complete (Step.caller68 s h3 hc), Or.inl ?_⟩
    have hd := h11 (h10 (h17 hc))
    simp [hg, hd.2.1, hd.2.2]
  | l66 =>
    have hnot := h18 hc
    cases hrun : s.runPc with
    | idle => exact absurd hrun hr.1
    | l98 => exact absurd hrun hr.2
    | l109 => exact absurd hrun hnot.1
    | l110 => exact absurd hrun hnot.2.1
    | returned => exact absurd hrun hnot.2.2
    | l99 =>
      have hnc : s.completed = false := by
        cases hcomp : s.completed with
        | false => rfl
        | true => have := h10 hcomp; simp [hrun] at this
      refine ⟨.run, _, by simp, step_complete (Step.run99f s h3 hrun
        (by simp [Future.isDone, hnc, h1, h2])), Or.inr ⟨by simp, hg, ?_⟩⟩
      simp only [Future.rank, hrun, RunPc.rank]
      omega
    | l102 =>
      refine ⟨.run, _, by simp, step_complete (Step.run102 s h3 hrun),
        Or.inr ⟨by simp, hg, ?_⟩⟩
      simp only [Future.rank, hrun, RunPc.rank]
      omega
    | l103 =>
      refine ⟨.run, _, by simp, step_complete (Step.run103 s h3 hrun),
        Or.inr ⟨by simp, hg, ?_⟩⟩
      simp only [Future.rank, hrun, RunPc.rank]
      omega
    | l104 =>
      refine ⟨.run, _, by simp, step_complete (Step.run104 s h3 hrun),
        Or.inr ⟨by simp, hg, ?_⟩⟩
      simp only [Future.rank, hrun, RunPc.rank]
      omega
    | l105 =>
      have hdone : s.done = .opened := by
        cases hd : s.done with
        | opened => rfl
        | closed => have := h15 hd; simp [hrun] at this
      refine ⟨.doneHandoff, _, by simp, step_complete (Step.doneHandoff s h3 hrun hc hdone),
        Or.inr ⟨by simp, hg, ?_⟩⟩
      simp only [Future.rank, hrun, hc, RunPc.rank, CallerPc.rank]
      omega

/-- Liveness of the run path: once the Operation has returned, and while the
timer does not fire and `Kill` is not called, `Get` returns the Operation's pair. -/
theorem run_path_returns {s : Future} (hq : RunQuiet s)
    (hr : s.runPc ≠ .idle ∧ s.runPc ≠ .l98) :
    ∃ more u, (∀ l ∈ more, l = .run ∨ l = .caller ∨ l = .callGet ∨ l = .doneHandoff) ∧
      exec more s = some u ∧ u.gets = s.gets ++ [(s.op.result, s.op.err)] := by
  refine drive (P := fun x => RunQuiet x ∧ (x.runPc ≠ .idle ∧ x.runPc ≠ .l98) ∧
      x.gets = s.gets ∧ x.op = s.op)
    (G := fun u => u.gets = s.gets ++ [(s.op.result, s.op.err)])
    (A := fun l => l = .run ∨ l = .caller ∨ l = .callGet ∨ l = .doneHandoff)
    Future.rank ?_ s.rank s (Nat.le_refl _) ⟨hq, hr, rfl, rfl⟩
  rintro x ⟨hxq, hxr, hxg, hxo⟩
  obtain ⟨l, x', hl, hs, hres⟩ := run_progress s.gets x hxq hxr hxg
  refine ⟨l, x', hl, hs, ?_⟩
  rcases hres with hres | ⟨h1, h2, h3⟩
  · left
    show x'.gets = _
    rw [hres, hxo]
  · right
    refine ⟨⟨runQuiet_step hs ?_ ?_ hxq, h1, h2, (step_op hs).trans hxo⟩, h3⟩
    · rcases hl with rfl | rfl | rfl | rfl <;> simp
    · rcases hl with rfl | rfl | rfl | rfl <;> simp

theorem fired_keep {l : Label} {f g : Future} (h : step l f = some g)
    (hq : TimerQuiet f) (hr : f.tickPc ≠ .idle ∧ f.tickPc ≠ .l77 ∧ f.tickPc ≠ .l79) :
    g.tickPc ≠ .idle ∧ g.tickPc ≠ .l77 ∧ g.tickPc ≠ .l79 := by
  have h18 := hq.2.2.2.2.2.2.2.2.2.2.2.2.2.2.2.2.2.1
  clear hq
  cases step_sound h <;> simp_all

theorem timerQuiet_exec {op : Operation} {ls : List Label} {s : Future}
    (h : exec ls (NewFuture op) = some s) (hq : ∀ l ∈ ls, l ≠ .opReturn ∧ l ≠ .callKill) :
    TimerQuiet s :=
  exec_invariant (P := TimerQuiet) (A := fun l => l ≠ .opReturn ∧ l ≠ .callKill)
    (fun _ _ _ hs hl hp => timerQuiet_step hs hl.1 hl.2 hp) ls _ _ h hq (timerQuiet_init op)

theorem fired_of_mem {op : Operation} {ls : List Label} {s : Future}
    (h : exec ls (NewFuture op) = some s) (hq : ∀ l ∈ ls, l ≠ .opReturn ∧ l ≠ .callKill)
    (hm : .timer ∈ ls) : s.tickPc ≠ .idle ∧ s.tickPc ≠ .l77 ∧ s.tickPc ≠ .l79 := by
  refine exec_track (P := TimerQuiet)
    (Q := fun f => f.tickPc ≠ .idle ∧ f.tickPc ≠ .l77 ∧ f.tickPc ≠ .l79)
    (A := fun l => l ≠ .opReturn ∧ l ≠ .callKill) (E := .timer)
    (fun _ _ _ hs hl hp => timerQuiet_step hs hl.1 hl.2 hp) ?_
    (fun _ _ _ hs _ hp hr => fired_keep hs hp hr) ls _ _ h hq (timerQuiet_init op)
    (Or.inl hm)
  intro f g hs _
  cases step_sound hs
  simp

theorem timedOutInv_exec {ls : List Label} {s t : Future}
    (h : exec ls s = some t) (hs : TimedOutInv s) : TimedOutInv t :=
  exec_invariant (P := TimedOutInv) (A := fun _ => True)
    (fun _ _ _ hs _ hp => timedOutInv_step hs hp) ls _ _ h (fun _ _ => trivial) hs

/-- While only the timer path is active and the timer has fired, a step of
`tick` or of the caller is enabled and brings the return of `Get` closer. -/
theorem timer_progress (g0 : List (Option Value × Option Error)) (s : Future)
    (hq : TimerQuiet s) (hf : s.tickPc ≠ .idle ∧ s.tickPc ≠ .l77 ∧ s.tickPc ≠ .l79)
    (hg : s.gets = g0) :
    ∃ l s', (l = .tick ∨ l = .caller ∨ l = .callGet) ∧ step l s = some s' ∧
      (s'.gets = g0 ++ [(none, some .ErrFutureTimedOut)] ∨
        ((s'.tickPc ≠ .idle ∧ s'.tickPc ≠ .l77 ∧ s'.tickPc ≠ .l79) ∧ s'.gets = g0 ∧
          s'.rank < s.rank)) := by
  obtain ⟨h1, h2, h3, h4, h5, h6, h7, h8, h9, h10, h11, h12, h13, h14, h15, h16, h17, h18,
    h19⟩ := hq
  clear h4 h5 h7 h9 h12 h16 h17
  cases hc : s.callerPc with
  | fresh => exact absurd (h18 (by simp [hc])) hf.1
  | l72 => exact absurd (h18 (by simp [hc])) hf.1
  | l73 =>
    have hrun := h19 (by simp [hc])
    refine ⟨.caller, _, by simp, step_complete (Step.caller73 s h3 hc), Or.inr ⟨hf, hg, ?_⟩⟩
    simp only [Future.rank, hc, hrun, CallerPc.rank, RunPc.rank]
    omega
  | ready =>
    refine ⟨.callGet, _, by simp, step_complete (Step.callGet s h3 hc), Or.inr ⟨hf, hg, ?_⟩⟩
    simp only [Future.rank, hc, CallerPc.rank]
    omega
  | l65 =>
    refine ⟨.caller, _, by simp, step_complete (Step.caller65f s h3 hc h1),
      Or.inr ⟨hf, hg, ?_⟩⟩
    simp only [Future.rank, hc, CallerPc.rank]
    omega
  | l68 =>
    refine ⟨.caller, _, by simp, step_complete (Step.caller68 s h3 hc), Or.inl ?_⟩
    have ht := h15 hc
    have he := h10 (by simp [ht])
    simp [hg, h6, he]
  | l66 =>
    cases ht : s.tickPc with
    | idle => exact absurd ht hf.1
    | l77 => exact absurd ht hf.2.1
    | l79 => exact absurd ht hf.2.2
    | l88 => simp [ht] at h8
    | l91 => simp [ht] at h8
    | l81 =>
      refine ⟨.tick, _, by simp, step_complete (Step.tick81f s h3 ht (by simp [h1, h2])),
        Or.inr ⟨by simp, hg, ?_⟩⟩
      simp only [Future.rank, ht, TickPc.rank]
      omega
    | l84 =>
      refine ⟨.tick, _, by simp, step_complete (Step.tick84 s h3 ht), Or.inr ⟨by simp, hg, ?_⟩⟩
      simp only [Future.rank, ht, TickPc.rank]
      omega
    | l85 =>
      refine ⟨.tick, _, by simp, step_complete (Step.tick85 s h3 ht), Or.inr ⟨by simp, hg, ?_⟩⟩
      simp only [Future.rank, ht, TickPc.rank]
      omega
    | l109 =>
      have hkill : s.kill = .opened := by
        cases hk : s.kill with
        | opened => rfl
        | closed => have := h11 hk; simp [ht] at this
      refine ⟨.tick, _, by simp, step_complete (Step.tick109 s h3 ht hkill),
        Or.inr ⟨by simp, hg, ?_⟩⟩
      simp only [Future.rank, ht, TickPc.rank]
      omega
    | l110 =>
      have hdone : s.done = .opened := by
        cases hd : s.done with
        | opened => rfl
        | closed => have := h13 hd; simp [ht] at this
      refine ⟨.tick, _, by simp, step_complete (Step.tick110 s h3 ht hdone),
        Or.inr ⟨by simp, hg, ?_⟩⟩
      simp only [Future.rank, ht, TickPc.rank]
      omega
    | returned =>
      refine ⟨.caller, _, by simp, step_complete (Step.caller66 s h3 hc (h14 ht)),
        Or.inr ⟨hf, hg, ?_⟩⟩
      simp only [Future.rank, hc, CallerPc.rank]
      omega

/-- Liveness of the timer path: once the timer has fired, and while the Operation
does not return and `Kill` is not called, `Get` returns the timeout pair. -/
theorem timer_path_returns {s : Future} (hq : TimerQuiet s)
    (hf : s.tickPc ≠ .idle ∧ s.tickPc ≠ .l77 ∧ s.tickPc ≠ .l79) :
    ∃ more u, (∀ l ∈ more, l = .tick ∨ l = .caller ∨ l = .callGet) ∧
      exec more s = some u ∧ u.gets = s.gets ++ [(none, some .ErrFutureTimedOut)] := by
  refine drive (P := fun x => TimerQuiet x ∧
      (x.tickPc ≠ .idle ∧ x.tickPc ≠ .l77 ∧ x.tickPc ≠ .l79) ∧ x.gets = s.gets)
    (G := fun u => u.gets = s.gets ++ [(none, some .ErrFutureTimedOut)])
    (A := fun l => l = .tick ∨ l = .caller ∨ l = .callGet)
    Future.rank ?_ s.rank s (Nat.le_refl _) ⟨hq, hf, rfl⟩
  rintro x ⟨hxq, hxf, hxg⟩
  obtain ⟨l, x', hl, hs, hres⟩ := timer_progress s.gets x hxq hxf hxg
  refine ⟨l, x', hl, hs, ?_⟩
  rcases hres with hres | ⟨h1, h2, h3⟩
  · exact Or.inl hres
  · right
    refine ⟨⟨timerQuiet_step hs ?_ ?_ hxq, h1, h2⟩, h3⟩
    · rcases hl with rfl | rfl | rfl <;> simp
    · rcases hl with rfl | rfl | rfl <;> simp

theorem started_keep {l : Label} {f g : Future} (h : step l f = some g)
    (hr : f.callerPc ≠ .fresh) : g.callerPc ≠ .fresh := by
  cases step_sound h <;> simp_all

theorem killCalled_keep {l : Label} {f g : Future} (h : step l f = some g)
    (hr : f.killerPc ≠ .ready ∨ f.kills ≠ []) : g.killerPc ≠ .ready ∨ g.kills ≠ [] := by
  cases step_sound h <;> simp_all

theorem killQuiet_exec {op : Operation} {ls : List Label} {s : Future}
    (h : exec ls (NewFuture op) = some s) (hq : ∀ l ∈ ls, l ≠ .timer ∧ l ≠ .opReturn) :
    KillQuiet s :=
  exec_invariant (P := KillQuiet) (A := fun l => l ≠ .timer ∧ l ≠ .opReturn)
    (fun _ _ _ hs hl hp => killQuiet_step hs hl.1 hl.2 hp) ls _ _ h hq (killQuiet_init op)

theorem started_of_mem {ls : List Label} {f s : Future}
    (h : exec ls f = some s) (hm : .callRun ∈ ls) : s.callerPc ≠ .fresh := by
  refine exec_track (P := fun _ => True) (Q := fun f => f.callerPc ≠ .fresh)
    (A := fun _ => True) (E := .callRun)
    (fun _ _ _ _ _ _ => trivial) ?_
    (fun _ _ _ hs _ _ hr => started_keep hs hr) ls _ _ h (fun _ _ => trivial) trivial
    (Or.inl hm)
  intro f g hs _
  cases step_sound hs
  simp

theorem killCalled_of_mem {ls : List Label} {f s : Future}
    (h : exec ls f = some s) (hm : .callKill ∈ ls) :
    s.killerPc ≠ .ready ∨ s.kills ≠ [] := by
  refine exec_track (P := fun _ => True)
    (Q := fun f => f.killerPc ≠ .ready ∨ f.kills ≠ [])
    (A := fun _ => True) (E := .callKill)
    (fun _ _ _ _ _ _ => trivial) ?_
    (fun _ _ _ hs _ _ hr => killCalled_keep hs hr) ls _ _ h (fun _ _ => trivial) trivial
    (Or.inl hm)
  intro f g hs _
  cases step_sound hs
  simp

theorem killedInv_exec {ls : List Label} {s t : Future}
    (h : exec ls s = some t) (hs : KilledInv s) : KilledInv t :=
  exec_invariant (P := KilledInv) (A := fun _ => True)
    (fun _ _ _ hs _ hp => killedInv_step hs hp) ls _ _ h (fun _ _ => trivial) hs

/-- While only the kill path is active, the Future was started and `Kill` was
called, a step that does not panic is enabled and brings closer the state in
which `Kill` has returned and the Future is marked killed. -/
theorem kill_progress (s : Future) (hq : KillQuiet s) (hst : s.callerPc ≠ .fresh)
    (hkc : s.killerPc ≠ .ready ∨ s.kills ≠ []) (hp : s.panicked = false)
    (hng : ¬ (s.killed = true ∧ s.kills ≠ [])) :
    ∃ l s', (l = .caller ∨ l = .tick ∨ l = .killer ∨ l = .killHandoff) ∧
      step l s = some s' ∧ s'.panicked = false ∧ s'.rank < s.rank := by
  obtain ⟨h1, h2, h3, h4, h5, h6, h7, h8, h9, h10, h11, h12, h13, h14, h15, h16, h17, h18,
    h19, h20⟩ := hq
  clear h3 h4 h5 h10 h11 h13 h16 h17 h20
  cases ht : s.tickPc with
  | idle =>
    rcases h19 ht with hc | hc
    · exact absurd hc hst
    · refine ⟨.caller, _, by simp, step_complete (Step.caller72 s hp hc), hp, ?_⟩
      simp only [Future.rank, hc, ht, CallerPc.rank, TickPc.rank]
      omega
  | l77 =>
    refine ⟨.tick, _, by simp, step_complete (Step.tick77 s hp ht), hp, ?_⟩
    simp only [Future.rank, ht, TickPc.rank]
    omega
  | l79 =>
    obtain ⟨hk0, hk56, _⟩ := h12 (by simp [ht])
    cases hkp : s.killerPc with
    | ready => rcases hkc with hkc | hkc
               · exact absurd hkp hkc
               · exact absurd hk0 hkc
    | l53 => exact absurd hkp h15
    | l56 => exact absurd hkp hk56
    | l52 =>
      refine ⟨.killer, _, by simp, step_complete (Step.killer52f s hp hkp h1), hp, ?_⟩
      simp only [Future.rank, hkp, KillerPc.rank]
      omega
    | l55 =>
      have hkill : s.kill = .opened := by
        cases hk : s.kill with
        | opened => rfl
        | closed => have := h9 hk; simp [ht] at this
      refine ⟨.killHandoff, _, by simp, step_complete (Step.killHandoff s hp hkp ht hkill),
        hp, ?_⟩
      simp only [Future.rank, hkp, ht, KillerPc.rank, TickPc.rank]
      omega
  | l81 => simp [ht] at h6
  | l84 => simp [ht] at h6
  | l85 => simp [ht] at h6
  | l88 =>
    have hk : s.killed = false := by
      cases hkd : s.killed with
      | false => rfl
      | true => have := h7 hkd; simp [ht] at this
    refine ⟨.tick, _, by simp, step_complete (Step.tick88f s hp ht
      (by simp [Future.isDone, h1, h2, hk])), hp, ?_⟩
    simp only [Future.rank, ht, TickPc.rank]
    omega
  | l91 =>
    refine ⟨.tick, _, by simp, step_complete (Step.tick91 s hp ht), hp, ?_⟩
    simp only [Future.rank, ht, TickPc.rank]
    omega
  | l109 =>
    have hkd := h8 (by simp [ht])
    have hk0 : s.kills = [] := by
      by_contra hne
      exact hng ⟨hkd, hne⟩
    have hk56 : s.killerPc = .l56 := by
      by_contra hne
      have := h14 ⟨hk0, hne⟩
      simp [ht] at this
    refine ⟨.killer, _, by simp, step_complete (Step.killer56 s hp hk56), hp, ?_⟩
    simp only [Future.rank, hk56, KillerPc.rank]
    omega
  | l110 =>
    have hkd := h8 (by simp [ht])
    have hk0 : s.kills = [] := by
      by_contra hne
      exact hng ⟨hkd, hne⟩
    have hk56 : s.killerPc = .l56 := by
      by_contra hne
      have := h14 ⟨hk0, hne⟩
      simp [ht] at this
    refine ⟨.killer, _, by simp, step_complete (Step.killer56 s hp hk56), hp, ?_⟩
    simp only [Future.rank, hk56, KillerPc.rank]
    omega
  | returned =>
    have hkd := h8 (by simp [ht])
    have hk0 : s.kills = [] := by
      by_contra hne
      exact hng ⟨hkd, hne⟩
    have hk56 : s.killerPc = .l56 := by
      by_contra hne
      have := h14 ⟨hk0, hne⟩
      simp [ht] at this
    refine ⟨.killer, _, by simp, step_complete (Step.killer56 s hp hk56), hp, ?_⟩
    simp only [Future.rank, hk56, KillerPc.rank]
    omega

/-- Liveness of the kill path: once the Future was started and `Kill` was called,
and while the timer does not fire and the Operation does not return, `Kill`
returns and `tick` marks the Future killed. -/
theorem kill_path_returns {s : Future} (hq : KillQuiet s) (hst : s.callerPc ≠ .fresh)
    (hkc : s.killerPc ≠ .ready ∨ s.kills ≠ []) (hp : s.panicked = false) :
    ∃ more u, (∀ l ∈ more, l = .caller ∨ l = .tick ∨ l = .killer ∨ l = .killHandoff) ∧
      exec more s = some u ∧ (u.killed = true ∧ u.kills ≠ []) := by
  by_cases hG : s.killed = true ∧ s.kills ≠ []
  · exact ⟨[], s, by simp, rfl, hG⟩
  refine drive (P := fun x => KillQuiet x ∧ x.callerPc ≠ .fresh ∧
      (x.killerPc ≠ .ready ∨ x.kills ≠ []) ∧ x.panicked = false ∧
      ¬ (x.killed = true ∧ x.kills ≠ []))
    (G := fun u => u.killed = true ∧ u.kills ≠ [])
    (A := fun l => l = .caller ∨ l = .tick ∨ l = .killer ∨ l = .killHandoff)
    Future.rank ?_ s.rank s (Nat.le_refl _) ⟨hq, hst, hkc, hp, hG⟩
  rintro x ⟨hxq, hxs, hxk, hxp, hxg⟩
  obtain ⟨l, x', hl, hs, hp', hr⟩ := kill_progress x hxq hxs hxk hxp hxg
  refine ⟨l, x', hl, hs, ?_⟩
  by_cases hG' : x'.killed = true ∧ x'.kills ≠ []
  · exact Or.inl hG'
  · right
    refine ⟨⟨killQuiet_step hs ?_ ?_ hxq, started_keep hs hxs, killCalled_keep hs hxk, hp',
      hG'⟩, hr⟩
    · rcases hl with rfl | rfl | rfl | rfl <;> simp
    · rcases hl with rfl | rfl | rfl | rfl <;> simp

/-- The run path when nothing disturbs it.  For every Operation, in every schedule in
which the Operation has returned and, so far, the timer has not fired and `Kill` has
not been called: (1) `Await` (`Run` then `Get`) returns, by steps of `run` and of the
caller alone, the pair of the Operation, and the Future is then completed; (2) every
pair `Get` has returned so far is that pair, and the Future is neither killed nor
timed out; (3) once `run` has marked the Future completed, whatever happens afterwards
(timer, `Kill`, further `Get`s), it stays completed, not killed, not timed out, nothing
panics, and every `Get` returns the pair of the Operation.  Nothing is said of a timer
that fires between the return of the Operation and line 104. -/
theorem run_path_undisturbed (op : Operation) (before after : List Label)
    (s t : Future)
    (hbefore : exec before (NewFuture op) = some s)
    (hquiet : ∀ l ∈ before, l ≠ .timer ∧ l ≠ .callKill)
    (hret : .opReturn ∈ before)
    (hafter : exec after s = some t) :
    (∃ more u, (∀ l ∈ more, l = .run ∨ l = .caller ∨ l = .callGet ∨ l = .doneHandoff) ∧
        exec more s = some u ∧ u.gets = s.gets ++ [(op.result, op.err)] ∧
        (u.completed = true ∧ u.killed = false ∧ u.timedout = false)) ∧
    (∀ p ∈ s.gets, p = (op.result, op.err)) ∧
    (s.killed = false ∧ s.timedout = false ∧ s.panicked = false) ∧
    (s.completed = true →
      (t.completed = true ∧ t.killed = false ∧ t.timedout = false) ∧
      t.panicked = false ∧ (∀ p ∈ t.gets, p = (op.result, op.err))) := by
  have hq := runQuiet_exec hbefore hquiet
  have hop : s.op = op := exec_op hbefore
  have hr := opReturned_of_mem hbefore hquiet hret
  refine ⟨?_, ?_, ⟨hq.1, hq.2.1, hq.2.2.1⟩, ?_⟩
  · obtain ⟨more, u, hm, he, hg⟩ := run_path_returns hq hr
    have hqu : RunQuiet u :=
      exec_invariant (P := RunQuiet) (A := fun l => l ≠ .timer ∧ l ≠ .callKill)
        (fun _ _ _ hs hl hp => runQuiet_step hs hl.1 hl.2 hp) more s u he
        (fun l hl => by rcases hm l hl with rfl | rfl | rfl | rfl <;> simp) hq
    refine ⟨more, u, hm, he, by rw [hg, hop], ?_, hqu.1, hqu.2.1⟩
    exact hqu.2.2.2.2.2.2.2.2.2.2.2.2.2.2.2.2.2.2 (by simp [hg])
  · have := hq.2.2.2.2.2.1
    rwa [hop] at this
  · intro hc
    have hi := completedInv_exec hafter (completedInv_of_runQuiet hq hc)
    have hop' : t.op = op := (exec_op hafter).trans hop
    refine ⟨⟨hi.1, hi.2.1, hi.2.2.1⟩, hi.2.2.2.1, ?_⟩
    have := hi.2.2.2.2.2.2.1
    rwa [hop'] at this

/-- The timer path when nothing disturbs it.  For every Operation, in every schedule
in which the timer has fired and, so far, the Operation has not returned and `Kill`
has not been called: (1) `Await` returns, by steps of `tick` and of the caller alone,
the pair `(nil, ErrFutureTimedOut)`, and the Future is then timed out, not completed,
not killed; (2) every pair `Get` has returned so far is that pair, and the Future is
neither completed nor killed; (3) once `Await` has returned, whatever happens
afterwards, the Future stays timed out, not completed, not killed, and every `Get`
returns `(nil, ErrFutureTimedOut)`.  Nothing is said of an Operation that returns
between the firing of the timer and the return of `tick`. -/
theorem timer_path_undisturbed (op : Operation) (before after : List Label)
    (s t : Future)
    (hbefore : exec before (NewFuture op) = some s)
    (hquiet : ∀ l ∈ before, l ≠ .opReturn ∧ l ≠ .callKill)
    (hfired : .timer ∈ before)
    (hafter : exec after s = some t) :
    (∃ more u, (∀ l ∈ more, l = .tick ∨ l = .caller ∨ l = .callGet) ∧
        exec more s = some u ∧ u.gets = s.gets ++ [(none, some .ErrFutureTimedOut)] ∧
        (u.timedout = true ∧ u.completed = false ∧ u.killed = false)) ∧
    (∀ p ∈ s.gets, p = (none, some .ErrFutureTimedOut)) ∧
    (s.completed = false ∧ s.killed = false ∧ s.panicked = false) ∧
    (s.gets ≠ [] →
      (t.timedout = true ∧ t.completed = false ∧ t.killed = false) ∧
      (∀ p ∈ t.gets, p = (none, some .ErrFutureTimedOut))) := by
  have hq := timerQuiet_exec hbefore hquiet
  have hf := fired_of_mem hbefore hquiet hfired
  refine ⟨?_, hq.2.2.2.2.2.2.2.2.2.2.2.2.2.2.2.2.1, ⟨hq.1, hq.2.1, hq.2.2.1⟩, ?_⟩
  · obtain ⟨more, u, hm, he, hg⟩ := timer_path_returns hq hf
    have hqu : TimerQuiet u :=
      exec_invariant (P := TimerQuiet) (A := fun l => l ≠ .opReturn ∧ l ≠ .callKill)
        (fun _ _ _ hs hl hp => timerQuiet_step hs hl.1 hl.2 hp) more s u he
        (fun l hl => by rcases hm l hl with rfl | rfl | rfl <;> simp) hq
    have hret := hqu.2.2.2.2.2.2.2.2.2.2.2.2.2.2.2.1 (by simp [hg])
    have hi := timedOutInv_of_timerQuiet hqu hret
    exact ⟨more, u, hm, he, hg, hi.1, hi.2.1, hi.2.2.1⟩
  · intro hne
    have hret := hq.2.2.2.2.2.2.2.2.2.2.2.2.2.2.2.1 hne
    have hi := timedOutInv_exec hafter (timedOutInv_of_timerQuiet hq hret)
    exact ⟨⟨hi.1, hi.2.1, hi.2.2.1⟩, hi.2.2.2.2.2.2.2.2.2.2.2.2.2⟩

/-- C3 (amended): (a) for every Operation, in every schedule in which `Run` and `Kill`
have been called (in either order) and, so far, the timer has not fired and the
Operation has not returned: unless a further `Kill` has already panicked, `Kill`
returns and `tick` marks the Future killed, by steps of the caller, `tick` and `Kill`
alone; every value `Kill` has returned so far is `true`; and once the Future is
marked killed, whatever happens afterwards, it stays killed, not completed, not timed
out, and no `Kill` has returned `false`.  (b) In every schedule in which `run` has
marked the Future completed before the timer fired and before any `Kill`, whatever
happens afterwards every `Kill` that returns returns `false`, and a `Kill` called
then returns `false` in three steps without touching the channel `kill`. -/
theorem kill_marks_killed (op : Operation) (before after before' after' : List Label)
    (s t s' t' : Future)
    (hbefore : exec before (NewFuture op) = some s)
    (hquiet : ∀ l ∈ before, l ≠ .timer ∧ l ≠ .opReturn)
    (hrun : .callRun ∈ before) (hkill : .callKill ∈ before)
    (hafter : exec after s = some t)
    (hbefore' : exec before' (NewFuture op) = some s')
    (hquiet' : ∀ l ∈ before', l ≠ .timer ∧ l ≠ .callKill)
    (hcompleted : s'.completed = true)
    (hafter' : exec after' s' = some t') :
    ((s.panicked = false →
        ∃ more u, (∀ l ∈ more, l = .caller ∨ l = .tick ∨ l = .killer ∨ l = .killHandoff) ∧
          exec more s = some u ∧ u.kills ≠ [] ∧ (∀ b ∈ u.kills, b = true) ∧
          (u.killed = true ∧ u.completed = false ∧ u.timedout = false)) ∧
      (∀ b ∈ s.kills, b = true) ∧
      (s.killed = true →
        (t.killed = true ∧ t.completed = false ∧ t.timedout = false) ∧
        (∀ b ∈ t.kills, b = true))) ∧
    ((∀ b ∈ t'.kills, b = false) ∧
      (t'.killerPc = .ready →
        ∃ u, exec [.callKill, .killer, .killer] t' = some u ∧
          u.kills = t'.kills ++ [false] ∧ u.kill = t'.kill)) := by
  have hq := killQuiet_exec hbefore hquiet
  have hst := started_of_mem hbefore hrun
  have hkc := killCalled_of_mem hbefore hkill
  refine ⟨⟨?_, hq.2.2.2.2.2.2.2.2.2.2.2.2.2.2.2.1, ?_⟩, ?_⟩
  · intro hp
    obtain ⟨more, u, hm, he, hk, hne⟩ := kill_path_returns hq hst hkc hp
    have hqu : KillQuiet u :=
      exec_invariant (P := KillQuiet) (A := fun l => l ≠ .timer ∧ l ≠ .opReturn)
        (fun _ _ _ hs hl hp => killQuiet_step hs hl.1 hl.2 hp) more s u he
        (fun l hl => by rcases hm l hl with rfl | rfl | rfl | rfl <;> simp) hq
    exact ⟨more, u, hm, he, hne, hqu.2.2.2.2.2.2.2.2.2.2.2.2.2.2.2.1, hk, hqu.1, hqu.2.1⟩
  · intro hk
    have hi := killedInv_exec hafter (killedInv_of_killQuiet hq hk)
    exact ⟨⟨hi.1, hi.2.1, hi.2.2.1⟩, hi.2.2.2.2.2.2.2.2.2.2.1⟩
  · have hq' := runQuiet_exec hbefore' hquiet'
    have hi := completedInv_exec hafter' (completedInv_of_runQuiet hq' hcompleted)
    refine ⟨hi.2.2.2.2.2.2.2.1, ?_⟩
    intro hready
    have hp := hi.2.2.2.1
    have hc := hi.1
    have hk := hi.2.1
    refine ⟨{ t' with kills := t'.kills ++ [false] }, ?_, rfl, rfl⟩
    simp [exec, step, Future.Kill, hp, hc, hk, hready]

/-- The run path on `demoOp`: the schedule `runFirst` then `runFirstRest`. -/
theorem run_path_undisturbed_example :
    exec runFirst (NewFuture demoOp) = some runFirstState ∧
    exec runFirstRest runFirstState = some runFirstEnd ∧
    ((runFirstEnd.completed = true ∧ runFirstEnd.killed = false ∧
        runFirstEnd.timedout = false) ∧
      runFirstEnd.panicked = false ∧
      (∀ p ∈ runFirstEnd.gets, p = (demoOp.result, demoOp.err))) :=
  ⟨by decide, by decide,
    (run_path_undisturbed demoOp runFirst runFirstRest runFirstState runFirstEnd
      (by decide) (by decide) (by decide) (by decide)).2.2.2 (by decide)⟩

/-- The timer path on `demoOp`: the schedule `timerFirst`, then the Operation returns. -/
theorem timer_path_undisturbed_example :
    exec timerFirst (NewFuture demoOp) = some timerFirstState ∧
    exec [.opReturn, .run, .run] timerFirstState = some timerFirstEnd ∧
    ((timerFirstEnd.timedout = true ∧ timerFirstEnd.completed = false ∧
        timerFirstEnd.killed = false) ∧
      (∀ p ∈ timerFirstEnd.gets, p = (none, some .ErrFutureTimedOut))) :=
  ⟨by decide, by decide,
    (timer_path_undisturbed demoOp timerFirst [.opReturn, .run, .run] timerFirstState
      timerFirstEnd (by decide) (by decide) (by decide) (by decide)).2.2.2 (by decide)⟩

/-- Witness of C3 (amended): the schedule `killFirst`, then `tick` closes and the
Operation returns; and a `Kill` after the schedule `runFirst`. -/
theorem kill_marks_killed_witness :
    exec killFirst (NewFuture demoOp) = some killFirstState ∧
    exec [.tick, .tick, .opReturn, .run, .run] killFirstState = some killFirstEnd ∧
    exec runFirst (NewFuture demoOp) = some runFirstState ∧
    exec [.doneHandoff, .caller] runFirstState = some runFirstGot ∧
    ((killFirstEnd.killed = true ∧ killFirstEnd.completed = false ∧
        killFirstEnd.timedout = false) ∧
      (∀ b ∈ killFirstEnd.kills, b = true)) ∧
    (∃ u, exec [.callKill, .killer, .killer] runFirstGot = some u ∧
      u.kills = runFirstGot.kills ++ [false] ∧ u.kill = runFirstGot.kill) :=
  have h := kill_marks_killed demoOp killFirst [.tick, .tick, .opReturn, .run, .run]
    runFirst [.doneHandoff, .caller] killFirstState killFirstEnd runFirstState runFirstGot
    (by decide) (by decide) (by decide) (by decide) (by decide) (by decide) (by decide)
    (by decide) (by decide)
  ⟨by decide, by decide, by decide, by decide, h.1.2.2 (by decide), h.2.2 (by decide)⟩

/-- Counterexample to C3: `Kill` called on a Future on which `Run` is not called tests
`f.completed` (false) and then waits at its send on `kill`, which only `tick`
receives: it has returned nothing, the Future is not marked killed, and no step is
possible but a call of `Run`. -/
theorem kill_unstarted_blocks :
    exec [.callKill, .killer] (NewFuture demoOp) = some killPending ∧
    killPending.kills = [] ∧ killPending.killed = false ∧
    (∀ l : Label, l ≠ .callRun → step l killPending = none) :=
  ⟨rfl, rfl, rfl, fun l hl => by cases l <;> first | rfl | exact absurd rfl hl⟩

/-- C1 (code defect): the Operation returns before the timer fires and `Kill` is never
called, yet on the schedule `returnThenTimer` the Future ends completed and timed out
at once, and `Await` returns the result of the Operation with `ErrFutureTimedOut`
instead of the error of the Operation: `tick` tests the flags at line 81 before `run`
writes `completed` at line 104, and `run` tests them at line 99 before `tick` writes
`timedout` at line 84. -/
theorem await_after_return_races_timer (op : Operation) :
    exec returnThenTimer (NewFuture op) =
      some { op := op, completed := true, killed := false, timedout := true,
             done := .opened, kill := .opened, result := op.result,
             err := some .ErrFutureTimedOut,
             tickPc := .l109, runPc := .l109, callerPc := .ready, killerPc := .ready,
             gets := [(op.result, some .ErrFutureTimedOut)], kills := [],
             panicked := false } :=
  rfl

/-- C2 (code defect): the timer fires before the Operation returns and `Kill` is never
called, yet on the schedule `timerThenReturn` the Future ends timed out and completed
at once, and `Await` returns the pair of the Operation instead of
`(nil, ErrFutureTimedOut)`: `run` tests the flags at line 99 before `tick` writes
`timedout` at line 84, and `tick` tests them at line 81 before `run` writes
`completed` at line 104. -/
theorem await_after_timer_races_return (op : Operation) :
    exec timerThenReturn (NewFuture op) =
      some { op := op, completed := true, killed := false, timedout := true,
             done := .opened, kill := .opened, result := op.result, err := op.err,
             tickPc := .l109, runPc := .l109, callerPc := .ready, killerPc := .ready,
             gets := [(op.result, op.err)], kills := [], panicked := false } :=
  rfl

/-- C4 (code defect): `tick` and `run` test the flags and write them in separate
statements.  When the timer fires and the Operation returns at about the same time,
both can pass their test (lines 81 and 99) before either writes its flag (lines 84
and 104): the Future is then completed and timed out at once, and `isDone` is true
with two flags set. -/
theorem completed_and_timedout_together (op : Operation) :
    exec [.callRun, .caller, .caller, .tick, .timer, .opReturn, .tick, .run, .tick,
        .run, .run, .run] (NewFuture op) =
      some { op := op, completed := true, killed := false, timedout := true,
             done := .opened, kill := .opened, result := op.result, err := op.err,
             tickPc := .l85, runPc := .l105, callerPc := .ready, killerPc := .ready,
             gets := [], kills := [], panicked := false } :=
  rfl

/-- C5 (code defect): after the timer resolved the Future and `Await` returned
`(nil, ErrFutureTimedOut)`, the return of the Operation makes `run` leave at line 100
and run its deferred `f.close()`, which closes the already closed channel `kill`:
the process panics (result, error and flags are unchanged). -/
theorem run_after_timeout_panics (op : Operation) :
    exec timerFirst (NewFuture op) =
      some { op := op, completed := false, killed := false, timedout := true,
             done := .closed, kill := .closed, result := none,
             err := some .ErrFutureTimedOut,
             tickPc := .returned, runPc := .l98, callerPc := .ready, killerPc := .ready,
             gets := [(none, some .ErrFutureTimedOut)], kills := [], panicked := false } ∧
    exec (timerFirst ++ [.opReturn, .run, .run]) (NewFuture op) =
      some { op := op, completed := false, killed := false, timedout := true,
             done := .closed, kill := .closed, result := none,
             err := some .ErrFutureTimedOut,
             tickPc := .returned, runPc := .l109, callerPc := .ready, killerPc := .ready,
             gets := [(none, some .ErrFutureTimedOut)], kills := [], panicked := true } :=
  ⟨rfl, rfl⟩

/-- C6 (code defect): `Kill` tests `f.completed`, not `f.isDone()`.  On a Future
that has timed out, and on a Future that was killed, it goes on to send on the
closed channel `kill` and panics instead of returning. -/
theorem kill_on_done_future_panics (op : Operation) :
    exec (timerFirst ++ [.callKill, .killer, .killer]) (NewFuture op) =
      some { op := op, completed := false, killed := false, timedout := true,
             done := .closed, kill := .closed, result := none,
             err := some .ErrFutureTimedOut,
             tickPc := .returned, runPc := .l98, callerPc := .ready, killerPc := .l55,
             gets := [(none, some .ErrFutureTimedOut)], kills := [], panicked := true } ∧
    exec (killFirst ++ [.tick, .tick, .callKill, .killer, .killer]) (NewFuture op) =
      some { op := op, completed := false, killed := true, timedout := false,
             done := .closed, kill := .closed, result := none, err := none,
             tickPc := .returned, runPc := .l98, callerPc := .ready, killerPc := .l55,
             gets := [], kills := [true], panicked := true } :=
  ⟨rfl, rfl⟩

theorem futureInv_init (op : Operation) : FutureInv (NewFuture op) := by
  simp [FutureInv, NewFuture]

set_option maxHeartbeats 4000000 in
theorem futureInv_step {l : Label} {f g : Future} (h : step l f = some g)
    (hi : FutureInv f) : FutureInv g := by
  have hs := step_sound h
  clear h
  obtain ⟨op, completed, killed, timedout, done, kill, result, err, tickPc, runPc, callerPc,
    killerPc, gets, kills, panicked⟩ := f
  obtain ⟨h1, h2, h3, h4, h5⟩ := hi
  simp only at h1 h2 h3 h4 h5
  unfold FutureInv
  cases hs <;>
    simp only [Future.isDone] at * <;> subst_vars <;> (try simp at *) <;>
    (repeat' apply And.intro) <;>
    first
      | assumption
      | (simp_all; done)
      | (cases runPc <;> simp_all; done)
      | (cases tickPc <;> simp_all; done)

theorem gets_ne_nil_step {l : Label} {f g : Future} (h : step l f = some g)
    (hg : f.gets ≠ []) : g.gets ≠ [] := by
  cases step_sound h <;> simp_all

theorem fresh_step {l : Label} {f g : Future} (h : step l f = some g)
    (hl : l.isCaller = false) (hc : f.callerPc = .fresh) : g.callerPc = .fresh := by
  cases step_sound h <;> simp_all [Label.isCaller]

theorem countP_set {α : Type} (p : α → Bool) :
    ∀ (ws : List α) (i : Nat) (w w' : α), ws[i]? = some w →
      (ws.set i w').countP p + (if p w then 1 else 0) =
        ws.countP p + (if p w' then 1 else 0) := by
  intro ws
  induction ws with
  | nil => intro i w w' h; simp at h
  | cons x xs ih =>
    intro i w w' h
    cases i with
    | zero =>
      simp only [List.getElem?_cons_zero, Option.some.injEq] at h
      subst h
      simp only [List.set_cons_zero, List.countP_cons]
      omega
    | succ n =>
      simp only [List.getElem?_cons_succ] at h
      have := ih n w w' h
      simp only [List.set_cons_succ, List.countP_cons]
      omega

theorem mem_of_getElem? {α : Type} :
    ∀ (ws : List α) (i : Nat) (w : α), ws[i]? = some w → w ∈ ws := by
  intro ws
  induction ws with
  | nil => intro i w h; simp at h
  | cons x xs ih =>
    intro i w h
    cases i with
    | zero =>
      simp only [List.getElem?_cons_zero, Option.some.injEq] at h
      simp [h]
    | succ n =>
      simp only [List.getElem?_cons_succ] at h
      exact List.mem_cons_of_mem _ (ih n w h)

theorem mem_set {α : Type} :
    ∀ (ws : List α) (i : Nat) (w' x : α), x ∈ ws.set i w' → x = w' ∨ x ∈ ws := by
  intro ws
  induction ws with
  | nil => intro i w' x h; simp at h
  | cons y ys ih =>
    intro i w' x h
    cases i with
    | zero =>
      simp only [List.set_cons_zero, List.mem_cons] at h
      rcases h with h | h
      · exact Or.inl h
      · exact Or.inr (List.mem_cons_of_mem _ h)
    | succ n =>
      simp only [List.set_cons_succ, List.mem_cons] at h
      rcases h with h | h
      · exact Or.inr (by simp [h])
      · rcases ih n w' x h with h | h
        · exact Or.inl h
        · exact Or.inr (List.mem_cons_of_mem _ h)

theorem countP_pos_of_mem {α : Type} (p : α → Bool) (ws : List α) (w : α)
    (hm : w ∈ ws) (hp : p w = true) : 0 < ws.countP p :=
  List.countP_pos_iff.mpr ⟨w, hm, hp⟩

theorem execInv_start {limit : Nat} {e : Executor} (hi : ExecInv e) :
    ExecInv (Start limit e).state := by
  unfold Start
  split
  · exact hi
  · rename_i hs
    split
    · exact hi
    · have h0 := hi.1 (by simpa using hs)
      simp [Outcome.state, ExecInv, Executor.holders, h0.2.2.2.2.2]

theorem execInv_init (limit size : Nat) (auto : Bool) :
    ExecInv (NewExecutor limit size auto) := by
  have h0 : ExecInv
      { max := size, semaphore := none, kill := none, buffer := none, out := none,
        started := false, stopped := false, loopPc := .idle, workers := [], sent := [],
        panicked := false } := by
    simp [ExecInv]
  unfold NewExecutor
  cases auto
  · exact h0
  · exact execInv_start h0

theorem execInv_stop {e : Executor} (hi : ExecInv e) : ExecInv (Stop e).state := by
  obtain ⟨h1, h2, h4⟩ := hi
  by_cases hst : e.stopped = true
  · simp only [Stop, hst, if_true, Outcome.state]
    exact ⟨h1, h2, h4⟩
  · simp only [Bool.not_eq_true] at hst
    cases hsd : e.started with
    | false =>
      have h0 := h1 hsd
      simp only [Stop, hst, Outcome.state, h0.2.1]
      simp [ExecInv, hsd, h0, Executor.holders]
    | true =>
      obtain ⟨s, hsem, hcap, hcnt, hle, hopen⟩ := h2 hsd
      obtain ⟨hcl, hk, hb, ho, hl⟩ := hopen hst
      simp only [Stop, hst, Outcome.state, hk, hb, ho, hl, hsem, hcl]
      simp [ExecInv, hsd, Executor.holders]
      refine ⟨⟨hcap, ?_, hle⟩, h4⟩
      simpa [Executor.holders] using hcnt

theorem workerInv_new (op : Operation) : WorkerInv { pc := .l64, fut := NewFuture op } := by
  refine ⟨futureInv_init op, ?_, ?_⟩ <;> simp [NewFuture]

theorem execInv_execute {e : Executor} (op : Operation) (hi : ExecInv e) :
    ExecInv (Execute e (NewFuture op)).state := by
  obtain ⟨h1, h2, h4⟩ := hi
  unfold Execute
  split
  · exact ⟨h1, h2, h4⟩
  · split
    · exact ⟨h1, h2, h4⟩
    · simp only [Outcome.state]
      exact ⟨h1, h2, h4⟩
    · rename_i hb
      split
      · simp only [Outcome.state]
        refine ⟨?_, ?_, ?_⟩
        · intro hs
          have := (h1 hs).2.2.1
          simp [hb] at this
        · intro hs
          obtain ⟨s, hsem, hcap, hcnt, hrest⟩ := h2 hs
          refine ⟨s, hsem, hcap, ?_, hrest⟩
          simpa [Executor.holders, Worker.holding] using hcnt
        · intro w hw
          simp only [List.mem_append, List.mem_singleton] at hw
          rcases hw with hw | hw
          · exact h4 w hw
          · rw [hw]
            exact workerInv_new op
      · exact ⟨h1, h2, h4⟩

theorem workerInv_set {ws : List Worker} {i : Nat} {w' : Worker}
    (h4 : ∀ x ∈ ws, WorkerInv x) (hw' : WorkerInv w') : ∀ x ∈ ws.set i w', WorkerInv x := by
  intro x hx
  rcases mem_set ws i w' x hx with rfl | hx
  · exact hw'
  · exact h4 x hx

theorem execInv_worker {i : Nat} {e e' : Executor} (h : Executor.worker i e = some e')
    (hi : ExecInv e) : ExecInv e' := by
  obtain ⟨max, semaphore, kill, buffer, out, started, stopped, loopPc, workers, sent,
    panicked⟩ := e
  obtain ⟨h1, h2, h4⟩ := hi
  simp only [Executor.holders] at h1 h2 h4
  unfold Executor.worker at h
  simp only at h
  cases hw : workers[i]? with
  | none => simp [hw] at h
  | some w =>
    simp only [hw] at h
    have hmem := mem_of_getElem? _ _ _ hw
    obtain ⟨hf, hw64, hw66⟩ := h4 w hmem
    have hne : workers ≠ [] := List.ne_nil_of_mem hmem
    have hstarted : started = true := by
      cases started with
      | false => exact absurd (h1 rfl).2.2.2.2.2 hne
      | true => rfl
    subst hstarted
    obtain ⟨s, hsem, hcap, hcnt, hle, hopen⟩ := h2 rfl
    subst hsem
    have hcount := fun w' => countP_set Worker.holding workers i w w' hw
    cases hpc : w.pc with
    | l64 =>
      simp only [hpc] at h
      split at h
      · cases h
        exact ⟨by simp, fun _ => ⟨s, rfl, hcap, hcnt, hle, hopen⟩, h4⟩
      · rename_i hcl
        split at h
        · rename_i hlt
          cases h
          have hc := hcount { w with pc := .l65 }
          simp [Worker.holding, hpc] at hc
          refine ⟨by simp, fun _ => ⟨_, rfl, hcap, ?_, ?_, hopen⟩,
            workerInv_set h4 ⟨hf, by simp, by simp⟩⟩
          · simp only [Executor.holders]
            omega
          · show s.count + 1 ≤ s.cap
            omega
        · cases h
    | l65 =>
      simp only [hpc] at h
      split at h
      · rename_i hret
        cases h
        have hc := hcount { w with pc := .l66 }
        simp [Worker.holding, hpc] at hc
        refine ⟨by simp, fun _ => ⟨s, rfl, hcap, ?_, hle, hopen⟩,
          workerInv_set h4 ⟨hf, by simp, fun _ => hret.2⟩⟩
        simp only [Executor.holders]
        omega
      · cases h
    | l66 =>
      simp only [hpc] at h
      have hgets := hw66 (Or.inl hpc)
      have hpos : 0 < s.count := by
        rw [hcnt]
        exact countP_pos_of_mem _ _ w hmem (by simp [Worker.holding, hpc])
      simp only [hpos, if_true] at h
      cases h
      have hc := hcount { w with pc := .l67 }
      simp [Worker.holding, hpc] at hc
      refine ⟨by simp, fun _ => ⟨_, rfl, hcap, ?_, ?_, hopen⟩,
        workerInv_set h4 ⟨hf, by simp, fun _ => hgets⟩⟩
      · simp only [Executor.holders]
        omega
      · show s.count - 1 ≤ s.cap
        omega
    | l67 =>
      simp only [hpc] at h
      have hgets := hw66 (Or.inr (Or.inl hpc))
      cases out with
      | none => simp at h
      | some c =>
        cases c with
        | closed =>
          simp only at h
          cases h
          exact ⟨by simp, fun _ => ⟨s, rfl, hcap, hcnt, hle, hopen⟩, h4⟩
        | opened =>
          simp only at h
          cases h
          have hc := hcount { w with pc := .returned }
          simp [Worker.holding, hpc] at hc
          refine ⟨by simp, fun _ => ⟨s, rfl, hcap, ?_, hle, hopen⟩,
            workerInv_set h4 ⟨hf, by simp, fun _ => hgets⟩⟩
          simp only [Executor.holders]
          omega
    | returned => simp [hpc] at h

theorem execInv_future {i : Nat} {l : Label} {e e' : Executor}
    (h : Executor.future i l e = some e') (hi : ExecInv e) : ExecInv e' := by
  obtain ⟨h1, h2, h4⟩ := hi
  unfold Executor.future at h
  cases hw : e.workers[i]? with
  | none => simp [hw] at h
  | some w =>
    simp only [hw] at h
    have hmem := mem_of_getElem? _ _ _ hw
    obtain ⟨hf, hw64, hw66⟩ := h4 w hmem
    split at h
    · cases h
    · rename_i hguard
      cases hs : step l w.fut with
      | none => simp [hs] at h
      | some g =>
        simp only [hs, Option.some.injEq] at h
        subst h
        have hc := countP_set Worker.holding e.workers i w { w with fut := g } hw
        simp only [Worker.holding] at hc
        have hne : e.workers ≠ [] := List.ne_nil_of_mem hmem
        have hstarted : e.started = true := by
          cases hs : e.started with
          | false => exact absurd (h1 hs).2.2.2.2.2 hne
          | true => rfl
        refine ⟨fun hs => by simp [hstarted] at hs, ?_, ?_⟩
        · intro hs
          obtain ⟨s, hsem, hcap, hcnt, hrest⟩ := h2 hs
          refine ⟨s, hsem, hcap, ?_, hrest⟩
          simp only [Executor.holders, Worker.holding] at hcnt ⊢
          omega
        · refine workerInv_set h4 ⟨futureInv_step hs hf, ?_, ?_⟩
          · intro hpc
            simp only at hpc
            have hnc : l.isCaller = false := by
              cases hl : l.isCaller with
              | false => rfl
              | true =>
                exfalso
                apply hguard
                refine ⟨hl, ?_⟩
                intro hcon
                rw [hpc] at hcon
                simp at hcon
            exact fresh_step hs hnc (hw64 hpc)
          · intro hpc
            exact gets_ne_nil_step hs (hw66 hpc)

theorem execInv_step {limit : Nat} {l : ELabel} {e e' : Executor}
    (h : estep limit l e = some e')
    (hi : ExecInv e) : ExecInv e' := by
  unfold estep at h
  split at h
  · cases h
  · cases l with
    | start =>
      simp only [Option.some.injEq] at h
      exact h ▸ execInv_start hi
    | stop =>
      simp only [Option.some.injEq] at h
      exact h ▸ execInv_stop hi
    | execute op =>
      simp only [Option.some.injEq] at h
      exact h ▸ execInv_execute op hi
    | worker i => exact execInv_worker h hi
    | future i l => exact execInv_future h hi

theorem eexec_cons (limit : Nat) (l : ELabel) (ls : List ELabel) (e : Executor) :
    eexec limit (l :: ls) e = (estep limit l e).bind (eexec limit ls) := rfl

theorem eexec_invariant {limit : Nat} {P : Executor → Prop}
    (hstep : ∀ l e e', estep limit l e = some e' → P e → P e') :
    ∀ (ls : List ELabel) (e e' : Executor), eexec limit ls e = some e' → P e → P e' := by
  intro ls
  induction ls with
  | nil =>
    intro e e' h hp
    simp only [eexec, Option.some.injEq] at h
    exact h ▸ hp
  | cons l ls ih =>
    intro e e' h hp
    rw [eexec_cons] at h
    cases hs : estep limit l e with
    | none => simp [hs] at h
    | some m =>
      rw [hs] at h
      exact ih m e' h (hstep l e m hs hp)

theorem execInv_eexec {limit size : Nat} {auto : Bool} {ls : List ELabel}
    {e : Executor}
    (h : eexec limit ls (NewExecutor limit size auto) = some e) : ExecInv e :=
  eexec_invariant (P := ExecInv) (fun _ _ _ hs hp => execInv_step hs hp) ls _ _ h
    (execInv_init limit size auto)

theorem stop_state_flags (e : Executor) :
    (Stop e).state.started = e.started ∧ (Stop e).state.max = e.max ∧
    (Stop e).state.stopped = true := by
  unfold Stop
  split
  · rename_i h
    simp [Outcome.state, h]
  · simp only
    split
    · simp [Outcome.state]
    · simp [Outcome.state]
    · split
      · split <;> (try split) <;> simp [Outcome.state]
      · simp [Outcome.state]

theorem execute_state_flags (e : Executor) (f : Future) :
    (Execute e f).state.started = e.started ∧ (Execute e f).state.max = e.max ∧
    (Execute e f).state.stopped = e.stopped := by
  unfold Execute
  split
  · simp [Outcome.state]
  · split
    · simp [Outcome.state]
    · simp [Outcome.state]
    · split <;> simp [Outcome.state]

theorem worker_flags {i : Nat} {e e' : Executor} (h : Executor.worker i e = some e') :
    e'.started = e.started ∧ e'.max = e.max ∧ e'.stopped = e.stopped := by
  unfold Executor.worker at h
  split at h
  · cases h
  · split at h
    · split at h
      · cases h
      · split at h
        · cases h; simp
        · split at h
          · cases h; simp
          · cases h
    · split at h
      · cases h; simp
      · cases h
    · split at h
      · cases h
      · split at h
        · cases h; simp
        · split at h
          · cases h; simp
          · cases h
    · split at h
      · cases h
      · cases h; simp
      · cases h; simp
    · cases h

theorem future_flags {i : Nat} {l : Label} {e e' : Executor}
    (h : Executor.future i l e = some e') :
    e'.started = e.started ∧ e'.max = e.max ∧ e'.stopped = e.stopped := by
  unfold Executor.future at h
  split at h
  · cases h
  · split at h
    · cases h
    · split at h
      · cases h
      · cases h; simp

/-- No step resets `started` or `stopped`, and only `Start` sets `started`. -/
theorem estep_flags {limit : Nat} {l : ELabel} {e e' : Executor}
    (h : estep limit l e = some e') :
    (l ≠ .start → e'.started = e.started) ∧ (e.started = true → e'.started = true) ∧
    (e.stopped = true → e'.stopped = true) ∧ e'.max = e.max := by
  unfold estep at h
  split at h
  · cases h
  · cases l with
    | start =>
      simp only [Option.some.injEq] at h
      subst h
      unfold Start
      split
      · simp_all [Outcome.state]
      · split <;> simp_all [Outcome.state]
    | stop =>
      simp only [Option.some.injEq] at h
      subst h
      have := stop_state_flags e
      simp [this]
    | execute op =>
      simp only [Option.some.injEq] at h
      subst h
      have := execute_state_flags e (NewFuture op)
      simp [this]
    | worker i =>
      have := worker_flags h
      simp [this]
    | future i l =>
      have := future_flags h
      simp [this]

theorem eexec_flags {limit : Nat} {ls : List ELabel} {e e' : Executor}
    (h : eexec limit ls e = some e') :
    (e.started = true → e'.started = true) ∧ (e.stopped = true → e'.stopped = true) ∧
    e'.max = e.max := by
  have := eexec_invariant
    (P := fun x => (e.started = true → x.started = true) ∧
      (e.stopped = true → x.stopped = true) ∧ x.max = e.max)
    (fun l a b hs hp => by
      have hf := estep_flags hs
      exact ⟨fun h => hf.2.1 (hp.1 h), fun h => hf.2.2.1 (hp.2.1 h), hf.2.2.2.trans hp.2.2⟩)
    ls e e' h ⟨id, id, rfl⟩
  exact this

theorem startReturns_count {limit : Nat} :
    ∀ (ls : List ELabel) (e e' : Executor), eexec limit ls e = some e' →
      (startReturns limit ls e).count true + (if e.started then 1 else 0) =
        if e'.started then 1 else 0 := by
  intro ls
  induction ls with
  | nil =>
    intro e e' h
    simp only [eexec, Option.some.injEq] at h
    subst h
    simp [startReturns]
  | cons l ls ih =>
    intro e e' h
    rw [eexec_cons] at h
    cases hs : estep limit l e with
    | none => simp [hs] at h
    | some m =>
      rw [hs] at h
      have hih := ih m e' h
      have hf := estep_flags hs
      simp only [startReturns, hs]
      by_cases hl : l = .start
      · subst hl
        have hm : m = (Start limit e).state := by
          unfold estep at hs
          split at hs
          · cases hs
          · simp only [Option.some.injEq] at hs
            exact hs.symm
        cases hst : e.started with
        | true =>
          have h1 : (Start limit e).returned = some false := by
            simp [Start, hst, Outcome.returned]
          have h2 := hf.2.1 hst
          simp only [h1, if_true, Option.toList, List.singleton_append, h2] at hih ⊢
          simp only [List.count_cons, Bool.false_eq_true, if_false, beq_iff_eq] at hih ⊢
          simpa using hih
        | false =>
          by_cases hbig : limit < e.max
          · have h1 : (Start limit e).returned = none := by
              simp [Start, hst, hbig, Outcome.returned]
            have h2 : m.started = false := by
              rw [hm]
              simp [Start, hst, hbig, Outcome.state]
            simp only [h1, if_true, Option.toList, List.nil_append] at hih ⊢
            rw [h2] at hih
            simpa using hih
          · have h1 : (Start limit e).returned = some true := by
              simp [Start, hst, hbig, Outcome.returned]
            have h2 : m.started = true := by
              rw [hm]
              simp [Start, hst, hbig, Outcome.state]
            simp only [h1, if_true, Option.toList, List.singleton_append, h2] at hih ⊢
            simp only [List.count_cons_self]
            simpa using hih
      · have h2 := hf.1 hl
        simp only [hl, if_false, List.nil_append]
        rw [h2] at hih
        exact hih

/-- Counterexample to C7: on an Executor of capacity 1 the schedule `overlap` reaches
a state in which two Operations are executing. -/
theorem operations_exceed_max :
    ∃ e, eexec limit64 overlap (NewExecutor limit64 1 true) = some e ∧ e.max = 1 ∧
      e.executingCount = 2 :=
  ⟨_, rfl, rfl, rfl⟩

/-- C7 (amended): for every Executor of limit `size`, started or not, and every
schedule of calls, worker steps and Future steps, at most `size` workers hold a
concurrency slot (are between the send and the receive on the semaphore, that is
inside `Await`); and every Operation that is executing belongs to a worker holding
a slot or to a Future that has been marked timed out or killed. -/
theorem slot_holders_bounded (limit size : Nat) (auto : Bool) (sched : List ELabel)
    (e : Executor) (h : eexec limit sched (NewExecutor limit size auto) = some e) :
    e.max = size ∧ e.holders ≤ size ∧
    (∀ w ∈ e.workers, w.executing = true →
      w.holding = true ∨ w.fut.timedout = true ∨ w.fut.killed = true) := by
  have hmax : e.max = size := by
    have := (eexec_flags h).2.2
    rw [this]
    unfold NewExecutor Start
    cases auto
    · rfl
    · simp only [Bool.false_eq_true, if_false, if_true]
      split <;> rfl
  obtain ⟨h1, h2, h4⟩ := execInv_eexec h
  refine ⟨hmax, ?_, ?_⟩
  · cases hs : e.started with
    | false => simp [Executor.holders, (h1 hs).2.2.2.2.2]
    | true =>
      obtain ⟨s, _, hcap, hcnt, hle, _⟩ := h2 hs
      omega
  · intro w hw hex
    obtain ⟨⟨f1, f2, f3, f4, f5⟩, hw64, hw66⟩ := h4 w hw
    simp only [Worker.executing, decide_eq_true_eq] at hex
    cases hpc : w.pc with
    | l64 =>
      have := (f1 (Or.inl (hw64 hpc))).2
      rw [hex] at this
      cases this
    | l65 => simp [Worker.holding, hpc]
    | l66 => simp [Worker.holding, hpc]
    | l67 =>
      have hd := f3 (Or.inr (hw66 (Or.inr (Or.inl hpc)))) hex
      rcases f4 hd with h | h | h
      · rw [hex] at h
        cases h
      · exact Or.inr (Or.inl h)
      · exact Or.inr (Or.inr h)
    | returned =>
      have hd := f3 (Or.inr (hw66 (Or.inr (Or.inr hpc)))) hex
      rcases f4 hd with h | h | h
      · rw [hex] at h
        cases h
      · exact Or.inr (Or.inl h)
      · exact Or.inr (Or.inr h)

/-- Witness of C7 (amended): in the state reached by the schedule `overlap` on an
Executor of capacity 1, one worker holds the slot, and the Operation that executes
outside a slot belongs to a Future that timed out. -/
theorem slot_holders_bounded_witness :
    ∃ e, eexec limit64 overlap (NewExecutor limit64 1 true) = some e ∧
      (e.max = 1 ∧ e.holders ≤ 1 ∧
        (∀ w ∈ e.workers, w.executing = true →
          w.holding = true ∨ w.fut.timedout = true ∨ w.fut.killed = true)) :=
  ⟨_, rfl, slot_holders_bounded limit64 1 true overlap _ rfl⟩

/-- C8 (code defect): `Get` tests `len(fs) == total` only after an append.  With
`total = 0` the test never succeeds: one Future that arrives is returned although
`total` is 0, and when nothing arrives the call ends with `ErrGetTimedOut` although
the 0 Futures asked for were there from the start. -/
theorem get_zero_total {F : Type} (f : F) :
    Get 0 [f] = ([f], some .ErrGetTimedOut) ∧
    Get 0 ([] : List F) = ([], some .ErrGetTimedOut) :=
  ⟨rfl, rfl⟩

theorem getLoop_spec {F : Type} (total : Int) :
    ∀ (arrivals fs : List F), (fs.length : Int) < total →
      ((total ≤ (fs.length + arrivals.length : Nat) →
          getLoop total fs arrivals =
            (fs ++ arrivals.take (total.toNat - fs.length), none)) ∧
        ((fs.length + arrivals.length : Nat) < total →
          getLoop total fs arrivals = (fs ++ arrivals, some .ErrGetTimedOut))) := by
  intro arrivals
  induction arrivals with
  | nil =>
    intro fs hlt
    refine ⟨fun h => ?_, fun _ => by simp [getLoop]⟩
    simp only [List.length_nil, Nat.add_zero] at h
    omega
  | cons a rest ih =>
    intro fs hlt
    simp only [getLoop, List.length_append, List.length_singleton, List.length_cons,
      List.length_nil, Nat.zero_add]
    by_cases heq : ((fs.length + 1 : Nat) : Int) = total
    · rw [if_pos heq]
      refine ⟨fun _ => ?_, fun h => ?_⟩
      · have : total.toNat - fs.length = 1 := by omega
        simp [this]
      · omega
    · rw [if_neg heq]
      have hlt' : (((fs ++ [a]).length : Nat) : Int) < total := by
        simp only [List.length_append, List.length_singleton]
        omega
      obtain ⟨h1, h2⟩ := ih (fs ++ [a]) hlt'
      simp only [List.length_append, List.length_singleton] at h1 h2
      refine ⟨fun h => ?_, fun h => ?_⟩
      · rw [h1 (by omega)]
        have : total.toNat - fs.length = (total.toNat - (fs.length + 1)) + 1 := by omega
        rw [this]
        simp
      · rw [h2 (by omega)]
        simp

/-- For a positive `total`, `Get` behaves as C8 says: the first `total` arrivals
with a nil error when that many arrive before the deadline, and otherwise all the
arrivals, fewer than `total`, with `ErrGetTimedOut`. -/
theorem get_positive_total {F : Type} (total : Int) (arrivals : List F) (hpos : 0 < total) :
    ((total ≤ arrivals.length →
        Get total arrivals = (arrivals.take total.toNat, none)) ∧
      ((arrivals.length : Int) < total →
        Get total arrivals = (arrivals, some .ErrGetTimedOut))) := by
  have h := getLoop_spec total arrivals [] (by simpa using hpos)
  simp only [List.length_nil, Nat.zero_add, List.nil_append, Nat.sub_zero] at h
  exact h

/-- Counterexample to C10: on an Executor created unstarted with size `2 ^ 48`, the
first `Start` panics at line 77 (`make(chan bool, e.max)`): it returns nothing and
`started` stays false.  `NewExecutor` with that size and `start` true panics
likewise. -/
theorem start_panics_on_huge_size :
    Start limit64 (NewExecutor limit64 (2 ^ 48) false) =
      .panics { max := 2 ^ 48, semaphore := none, kill := none, buffer := none,
                out := none, started := false, stopped := false, loopPc := .idle,
                workers := [], sent := [], panicked := true } ∧
    (Start limit64 (NewExecutor limit64 (2 ^ 48) false)).returned = none ∧
    (NewExecutor limit64 (2 ^ 48) true).started = false ∧
    (NewExecutor limit64 (2 ^ 48) true).panicked = true :=
  ⟨rfl, rfl, rfl, rfl⟩

/-- C10 (amended): for every Executor whose size is within the capacity limit of the
runtime, and every schedule: `NewExecutor` with `start` false allocates nothing and
leaves it unstarted, `NewExecutor` with `start` true leaves it as a first `Start`
does; the calls of `Start` that returned true, counted with the automatic start, are
one if the Executor is started and none otherwise; a `Start` on an Executor not yet
started, stopped or not, returns true, makes the semaphore of capacity `size` and the
three channels, sets `started` and launches the dispatch loop, and changes nothing
else; a `Start` on a started Executor, stopped or not, returns false and leaves the
state as it is; and no later step resets `started` or `stopped`. -/
theorem start_returns_true_once (limit size : Nat) (auto : Bool)
    (sched more : List ELabel) (e e' : Executor)
    (hsize : size ≤ limit)
    (h : eexec limit sched (NewExecutor limit size auto) = some e)
    (h' : eexec limit more e = some e') :
    (NewExecutor limit size false =
      { max := size, semaphore := none, kill := none, buffer := none, out := none,
        started := false, stopped := false, loopPc := .idle, workers := [], sent := [],
        panicked := false }) ∧
    (Start limit (NewExecutor limit size false) =
      .returns true (NewExecutor limit size true)) ∧
    ((startReturns limit sched (NewExecutor limit size auto)).count true +
        (if auto then 1 else 0) =
      if e.started then 1 else 0) ∧
    (e.started = false →
      Start limit e =
        .returns true { e with
          semaphore := some { cap := size, count := 0, closed := false },
          kill := some .opened, buffer := some .opened, out := some .opened,
          started := true, loopPc := .l58 }) ∧
    (e.started = true → Start limit e = .returns false e) ∧
    ((e.started = true → e'.started = true) ∧ (e.stopped = true → e'.stopped = true)) := by
  have hnot : ¬ limit < size := Nat.not_lt.mpr hsize
  have hinit : (NewExecutor limit size auto).started = auto := by
    cases auto <;> simp [NewExecutor, Start, Outcome.state, hnot]
  have hmax : e.max = size := by
    have := (eexec_flags h).2.2
    rw [this]
    unfold NewExecutor Start
    cases auto
    · rfl
    · simp only [Bool.false_eq_true, if_false, if_true]
      split <;> rfl
  refine ⟨rfl, ?_, ?_, ?_, ?_, (eexec_flags h').1, (eexec_flags h').2.1⟩
  · simp [NewExecutor, Start, Outcome.state, hnot]
  · have := startReturns_count sched _ e h
    rw [hinit] at this
    exact this
  · intro hs
    simp [Start, hs, hmax, hnot]
  · intro hs
    simp [Start, hs]

/-- Witness of C10 (amended): an Executor of size 1 created unstarted, then `Start`,
`Stop`, `Start`; the first `Start` returned true and the second false. -/
theorem start_returns_true_once_witness :
    startReturns limit64 [.start, .stop, .start] (NewExecutor limit64 1 false) =
      [true, false] ∧
    ((startReturns limit64 [.start, .stop, .start]
          (NewExecutor limit64 1 false)).count true + (if false then 1 else 0) =
      if (Stop (NewExecutor limit64 1 true)).state.started then 1 else 0) ∧
    Start limit64 (Stop (NewExecutor limit64 1 true)).state =
      .returns false (Stop (NewExecutor limit64 1 true)).state :=
  have h := start_returns_true_once limit64 1 false [.start, .stop, .start] [.start]
    (Stop (NewExecutor limit64 1 true)).state
    (Stop (NewExecutor limit64 1 true)).state (by decide) rfl rfl
  ⟨rfl, h.2.2.1, h.2.2.2.2.1 rfl⟩

end Eventually
